import Mathlib

/-!
Verification of the `gfx-mem` GPU device-memory suballocator.

The development shallowly embeds the crate's four allocators
(`RootAllocator`, `ChunkedAllocator`, `CombinedAllocator`, `SmartAllocator`,
files `src/root.rs`, `src/chunked.rs`, `src/combined.rs`, `src/smart.rs`)
as pure state-passing functions over `Nat`, with `u64` release-mode
wrapping arithmetic made explicit by `% 2^64` at the operations where
overflow can occur.  Rust `panic!` / failed `assert!` is modelled by the
`RRes.fatal` outcome (release mode: `debug_assert!` is a no-op).
-/

namespace GfxMem

/-- Modulus of the `u64` machine integers used throughout the crate. -/
def U64 : Nat := 2 ^ 64

/-- Wrapping `u64` subtraction `a - b` (release-mode overflow semantics). -/
def wsub (a b : Nat) : Nat := (a + (U64 - b % U64)) % U64

/-- Error enumeration of the crate (`MemoryError` in `lib.rs`). -/
inductive MemoryError where
  | OutOfMemory
  | NoCompatibleMemoryType
  | OutOfHostMemory
deriving DecidableEq, Repr

/-- Outcome of running a piece of Rust code: a value, a recoverable
`MemoryError`, or a `panic!` / failed assertion (modelled as `fatal`). -/
inductive RRes (α : Type) where
  | ok : α → RRes α
  | err : MemoryError → RRes α
  | fatal : RRes α
deriving DecidableEq, Repr

/-- `gfx_hal::memory::Requirements`: all three fields are machine integers
(`size`, `alignment` are `u64`, `type_mask` is the `u32`/`u64` bitset). -/
structure Requirements where
  size : Nat
  alignment : Nat
  typeMask : Nat
deriving DecidableEq, Repr

/-- A byte range `[start, stop)` inside one device allocation. -/
structure MRange where
  start : Nat
  stop : Nat
deriving DecidableEq, Repr

/-- Modelled from the spec: `RawBlock` of the missing `src/block.rs` — the
primitive block `(memory_ref, range)`.  Device memories are identified by a
`Nat` standing for the stable address of the boxed memory handle, so `Nat`
equality models Rust's `ptr::eq` identity comparison. -/
structure RawBlock where
  memory : Nat
  range : MRange
deriving DecidableEq, Repr

/-- `Block::size()` is `range().end - range().start`. -/
def RawBlock.size (b : RawBlock) : Nat := b.range.stop - b.range.start

/-- Modelled from the spec: `alignment_shift` of the missing `lib.rs` — the
amount by which `start` must grow to reach the next multiple of `alignment`
(zero iff `start` is already aligned). -/
def alignmentShift (alignment start : Nat) : Nat :=
  (alignment - start % alignment) % alignment

/-- Errors the backend device can produce (spec section 6): structurally it
never produces `NoCompatibleMemoryType`. -/
inductive DeviceError where
  | outOfMemory
  | outOfHostMemory
deriving DecidableEq, Repr

/-- Conversion of a device error into the crate's error enumeration. -/
def DeviceError.toMemoryError : DeviceError → MemoryError
  | .outOfMemory => .OutOfMemory
  | .outOfHostMemory => .OutOfHostMemory

/-- The external device (spec section 6): `plan n` says whether the `n`-th
`allocate_memory` call fails; `next` numbers the calls and doubles as the
fresh, stable identity of the returned memory handle. -/
structure Device where
  plan : Nat → Option DeviceError
  next : Nat

/-- `device.allocate_memory(id, size)`: a fresh memory whose address is
distinct from all outstanding memories (spec section 6). -/
def Device.allocateMemory (d : Device) : RRes Nat × Device :=
  match d.plan d.next with
  | none => (.ok d.next, { d with next := d.next + 1 })
  | some e => (.err e.toMemoryError, d)

/-- `RootAllocator` (src/root.rs): direct pass-through to the device,
tracking the number of outstanding allocations. -/
structure RootAllocator where
  id : Nat
  allocations : Nat
deriving DecidableEq, Repr

/-- `RootAllocator::new`. -/
def RootAllocator.new (id : Nat) : RootAllocator := ⟨id, 0⟩

/-- `RootAllocator::is_used`: `allocations != 0`. -/
def RootAllocator.isUsed (r : RootAllocator) : Bool := r.allocations != 0

/-- `RootAllocator::alloc`: fresh device memory of exactly `reqs.size`
bytes, wrapped as a `RawBlock` over `[0, reqs.size)`. -/
def RootAllocator.alloc (r : RootAllocator) (d : Device) (reqs : Requirements) :
    RRes RawBlock × RootAllocator × Device :=
  match d.allocateMemory with
  | (.ok mem, d') => (.ok ⟨mem, ⟨0, reqs.size⟩⟩, ⟨r.id, r.allocations + 1⟩, d')
  | (.err e, d') => (.err e, r, d')
  | (.fatal, d') => (.fatal, r, d')

/-- `RootAllocator::free`: asserts `block.range().start == 0`, returns the
memory to the device and decrements the outstanding counter. -/
def RootAllocator.free (r : RootAllocator) (d : Device) (b : RawBlock) :
    RRes Unit × RootAllocator × Device :=
  if b.range.start ≠ 0 then (.fatal, r, d)
  else (.ok (), ⟨r.id, r.allocations - 1⟩, d)

/-- `ChunkedBlock` (src/chunked.rs): a `RawBlock` tagged with the index of
the upstream backing block it was carved from. -/
structure ChunkedBlock where
  raw : RawBlock
  tag : Nat
deriving DecidableEq, Repr

/-- `Block::size()` of a `ChunkedBlock`. -/
def ChunkedBlock.size (b : ChunkedBlock) : Nat := b.raw.size

/-- `ChunkedNode` (src/chunked.rs): one size class — a free queue of
`(block_index, chunk_index)` pairs (list head = queue front) and the
upstream backing blocks. -/
structure ChunkedNode where
  id : Nat
  chunksPerBlock : Nat
  chunkSize : Nat
  free : List (Nat × Nat)
  blocks : List RawBlock
deriving DecidableEq, Repr

/-- `ChunkedNode::new`. -/
def ChunkedNode.new (chunkSize chunksPerBlock id : Nat) : ChunkedNode :=
  ⟨id, chunksPerBlock, chunkSize, [], []⟩

/-- `ChunkedNode::count`: total chunks carved so far. -/
def ChunkedNode.count (n : ChunkedNode) : Nat :=
  n.blocks.length * n.chunksPerBlock

/-- `ChunkedNode::is_used`: some chunk is outstanding. -/
def ChunkedNode.isUsed (n : ChunkedNode) : Bool :=
  n.count != n.free.length

/-- `ChunkedNode::grow`: request one backing block of
`chunk_size * chunks_per_block` bytes (u64 product wraps in release mode)
from the owning `RootAllocator`, assert its alignment and capacity, then
push all chunk indices onto the back of the free queue. -/
def ChunkedNode.grow (n : ChunkedNode) (r : RootAllocator) (d : Device) :
    RRes Unit × ChunkedNode × RootAllocator × Device :=
  let reqs : Requirements :=
    ⟨(n.chunkSize * n.chunksPerBlock) % U64, n.chunkSize, 2 ^ n.id⟩
  match r.alloc d reqs with
  | (.ok block, r', d') =>
    if alignmentShift reqs.alignment block.range.start ≠ 0 then (.fatal, n, r', d')
    else if ¬ n.chunksPerBlock ≤ block.size / n.chunkSize then (.fatal, n, r', d')
    else
      (.ok (),
        { n with
          free := n.free ++ (List.range n.chunksPerBlock).map (fun i => (n.blocks.length, i)),
          blocks := n.blocks ++ [block] }, r', d')
  | (.err e, r', d') => (.err e, n, r', d')
  | (.fatal, r', d') => (.fatal, n, r', d')

/-- `ChunkedNode::alloc_no_grow`: pop the front of the free queue and carve
the chunk at `offset = chunk_index * chunk_size` (u64 arithmetic) counted
from the start of the backing memory. -/
def ChunkedNode.allocNoGrow (n : ChunkedNode) : RRes (Option (ChunkedBlock × ChunkedNode)) :=
  match n.free with
  | [] => .ok none
  | (blockIndex, chunkIndex) :: rest =>
    match n.blocks[blockIndex]? with
    | none => .fatal
    | some b =>
      let offset := (chunkIndex * n.chunkSize) % U64
      .ok (some (⟨⟨b.memory, ⟨offset, (n.chunkSize + offset) % U64⟩⟩, blockIndex⟩,
        { n with free := rest }))

/-- `ChunkedNode::alloc` (`MemorySubAllocator` impl): serve from the free
queue, asserting fit and alignment (`alignment - 1` wraps for `u64`), or
grow once and take the first fresh chunk (`unwrap`, no asserts). -/
def ChunkedNode.alloc (n : ChunkedNode) (r : RootAllocator) (d : Device)
    (reqs : Requirements) : RRes ChunkedBlock × ChunkedNode × RootAllocator × Device :=
  if 2 ^ n.id &&& reqs.typeMask == 0 then (.err .NoCompatibleMemoryType, n, r, d)
  else
    match n.allocNoGrow with
    | .ok (some (blk, n')) =>
      if ¬ reqs.size ≤ blk.size then (.fatal, n', r, d)
      else if blk.raw.range.start &&& wsub reqs.alignment 1 ≠ 0 then (.fatal, n', r, d)
      else (.ok blk, n', r, d)
    | .ok none =>
      match n.grow r d with
      | (.ok _, n', r', d') =>
        match n'.allocNoGrow with
        | .ok (some (blk, n'')) => (.ok blk, n'', r', d')
        | _ => (.fatal, n', r', d')
      | (.err e, n', r', d') => (.err e, n', r', d')
      | (.fatal, n', r', d') => (.fatal, n', r', d')
    | .err _ => (.fatal, n, r, d)
    | .fatal => (.fatal, n, r, d)

/-- `ChunkedNode::free`: assert class alignment, exact chunk size and
memory identity, then push `(block_index, chunk_index)` onto the front of
the free queue.  The owner and device are untouched.  (Named `freeBlock`
because the structure already has the `free` queue field.) -/
def ChunkedNode.freeBlock (n : ChunkedNode) (b : ChunkedBlock) : RRes ChunkedNode :=
  if n.chunkSize = 0 then .fatal
  else if b.raw.range.start % n.chunkSize ≠ 0 then .fatal
  else if b.size ≠ n.chunkSize then .fatal
  else
    match n.blocks[b.tag]? with
    | none => .fatal
    | some blk =>
      if blk.memory ≠ b.raw.memory then .fatal
      else .ok { n with free := (b.tag, b.raw.range.start / n.chunkSize) :: n.free }

/-- Number of leading zero bits of a `u64` value, via a fuelled binary
length: `bitlenAux 64 n` is the bit length of `n` for every `n < 2^64`. -/
def bitlenAux (fuel n : Nat) : Nat :=
  match fuel with
  | 0 => 0
  | f + 1 => if n = 0 then 0 else bitlenAux f (n / 2) + 1

/-- `u64::leading_zeros`. -/
def leadingZeros64 (n : Nat) : Nat := 64 - bitlenAux 64 n

/-- `chunk_size(index)` closure of `ChunkedAllocator::grow`:
`min_chunk_size * (1u64 << index)` with release-mode `u64` shift masking
and product wrapping. -/
def chunkSizeAt (minChunkSize i : Nat) : Nat :=
  (minChunkSize * 2 ^ (i % 64)) % U64

/-- `ChunkedAllocator` (src/chunked.rs): sparse sequence of size-class
nodes. -/
structure ChunkedAllocator where
  id : Nat
  chunksPerBlock : Nat
  minChunkSize : Nat
  maxChunkSize : Nat
  nodes : List ChunkedNode
deriving DecidableEq, Repr

/-- `ChunkedAllocator::new`. -/
def ChunkedAllocator.new (chunksPerBlock minChunkSize maxChunkSize id : Nat) :
    ChunkedAllocator :=
  ⟨id, chunksPerBlock, minChunkSize, maxChunkSize, []⟩

/-- `ChunkedAllocator::is_used`. -/
def ChunkedAllocator.isUsed (c : ChunkedAllocator) : Bool :=
  c.nodes.any ChunkedNode.isUsed

/-- `ChunkedAllocator::pick_node`:
`bits - ((size - 1) / min_chunk_size).leading_zeros()` with `bits = 64`;
asserts `size != 0`, and `u64` division by zero is a panic.  (The
`debug_assert!(size <= max_chunk_size)` is compiled out in release mode.) -/
def ChunkedAllocator.pickNode (c : ChunkedAllocator) (size : Nat) : RRes Nat :=
  if size = 0 then .fatal
  else if c.minChunkSize = 0 then .fatal
  else .ok (64 - leadingZeros64 ((size - 1) / c.minChunkSize))

/-- `ChunkedAllocator::grow`: assert `chunk_size(size) <= max_chunk_size`,
then extend the node sequence over indices `len..size+1`. -/
def ChunkedAllocator.grow (c : ChunkedAllocator) (size : Nat) : RRes ChunkedAllocator :=
  if ¬ chunkSizeAt c.minChunkSize size ≤ c.maxChunkSize then .fatal
  else
    let len := c.nodes.length
    .ok { c with
      nodes := c.nodes ++ (List.range' len (size + 1 - len)).map
        (fun i => ChunkedNode.new (chunkSizeAt c.minChunkSize i) c.chunksPerBlock c.id) }

/-- `ChunkedAllocator::alloc`: reject `reqs.size > max_chunk_size` with
`OutOfMemory`, pick the class of `max(reqs.size, reqs.alignment)`, grow the
node sequence, and delegate to the picked node. -/
def ChunkedAllocator.alloc (c : ChunkedAllocator) (r : RootAllocator) (d : Device)
    (reqs : Requirements) : RRes ChunkedBlock × ChunkedAllocator × RootAllocator × Device :=
  if c.maxChunkSize < reqs.size then (.err .OutOfMemory, c, r, d)
  else
    match c.pickNode (max reqs.size reqs.alignment) with
    | .ok index =>
      match c.grow (index + 1) with
      | .ok c' =>
        match c'.nodes[index]? with
        | some n =>
          match n.alloc r d reqs with
          | (res, n', r', d') => (res, { c' with nodes := c'.nodes.set index n' }, r', d')
        | none => (.fatal, c', r, d)
      | _ => (.fatal, c, r, d)
    | _ => (.fatal, c, r, d)

/-- `ChunkedAllocator::free`: recompute the class from `block.size()` and
delegate to that node. -/
def ChunkedAllocator.free (c : ChunkedAllocator) (r : RootAllocator) (d : Device)
    (b : ChunkedBlock) : RRes Unit × ChunkedAllocator × RootAllocator × Device :=
  match c.pickNode b.size with
  | .ok index =>
    match c.nodes[index]? with
    | some n =>
      match n.freeBlock b with
      | .ok n' => (.ok (), { c with nodes := c.nodes.set index n' }, r, d)
      | _ => (.fatal, c, r, d)
    | none => (.fatal, c, r, d)
  | _ => (.fatal, c, r, d)

/-- Round `v` up to the next multiple of `a` (`a > 0`). -/
def alignUp (v a : Nat) : Nat := (v + a - 1) / a * a

/-- Modelled from the spec: one `Arena` of the missing `src/arena.rs` —
a fixed-size backing block with bump pointer `used`, plus `freed` and
`allocated` counters and a never-reused arena id (spec sections 3, 4.3). -/
structure Arena where
  block : RawBlock
  used : Nat
  freed : Nat
  allocated : Nat
  id : Nat
deriving DecidableEq, Repr

/-- Modelled from the spec: `ArenaBlock` of the missing `src/arena.rs` —
a `RawBlock` tagged with the id of the arena it was bumped from. -/
structure ArenaBlock where
  raw : RawBlock
  tag : Nat
deriving DecidableEq, Repr

/-- Modelled from the spec: `ArenaAllocator` of the missing `src/arena.rs`
(spec section 4.3).  `arenas` is the FIFO, head = oldest, last = newest
(the current bump target). -/
structure ArenaAllocator where
  arenaSize : Nat
  id : Nat
  arenas : List Arena
  nextArenaId : Nat
deriving DecidableEq, Repr

/-- Modelled from the spec: `ArenaAllocator::is_used` — some arena has an
allocation not yet returned (spec section 4.3). -/
def ArenaAllocator.isUsed (ar : ArenaAllocator) : Bool :=
  ar.arenas.any (fun a => a.allocated != a.freed)

/-- Modelled from the spec: the grow step of `ArenaAllocator::alloc` —
acquire a fresh arena from the owner with
`{size: arena_size, alignment: max(arena_alignment, reqs.alignment),
type_mask: 1 << id}` (the implementation-chosen `arena_alignment` is taken
as 1) and place the request at its start.  The spec leaves a request that
does not fit even a fresh arena unspecified; the model keeps the acquired
arena and reports `OutOfMemory`. -/
def ArenaAllocator.allocFresh (ar : ArenaAllocator) (r : RootAllocator) (d : Device)
    (reqs : Requirements) : RRes ArenaBlock × ArenaAllocator × RootAllocator × Device :=
  match r.alloc d ⟨ar.arenaSize, max 1 reqs.alignment, 2 ^ ar.id⟩ with
  | (.ok blk, r', d') =>
    if reqs.size ≤ ar.arenaSize then
      (.ok ⟨⟨blk.memory, ⟨blk.range.start, blk.range.start + reqs.size⟩⟩, ar.nextArenaId⟩,
        { ar with
          arenas := ar.arenas ++ [⟨blk, reqs.size, 0, 1, ar.nextArenaId⟩],
          nextArenaId := ar.nextArenaId + 1 }, r', d')
    else
      (.err .OutOfMemory,
        { ar with
          arenas := ar.arenas ++ [⟨blk, 0, 0, 0, ar.nextArenaId⟩],
          nextArenaId := ar.nextArenaId + 1 }, r', d')
  | (.err e, r', d') => (.err e, ar, r', d')
  | (.fatal, r', d') => (.fatal, ar, r', d')

/-- Modelled from the spec: `ArenaAllocator::alloc` — reject a foreign type
mask, try to bump inside the newest arena, otherwise acquire a fresh arena
from the owner (spec section 4.3 steps 1-3). -/
def ArenaAllocator.alloc (ar : ArenaAllocator) (r : RootAllocator) (d : Device)
    (reqs : Requirements) : RRes ArenaBlock × ArenaAllocator × RootAllocator × Device :=
  if 2 ^ ar.id &&& reqs.typeMask == 0 then (.err .NoCompatibleMemoryType, ar, r, d)
  else if reqs.alignment = 0 then (.fatal, ar, r, d)
  else
    match ar.arenas.getLast? with
    | some a =>
      let candidate := alignUp a.used reqs.alignment
      if candidate + reqs.size ≤ ar.arenaSize then
        (.ok ⟨⟨a.block.memory, ⟨a.block.range.start + candidate,
            a.block.range.start + candidate + reqs.size⟩⟩, a.id⟩,
          { ar with arenas := ar.arenas.dropLast ++
            [{ a with used := candidate + reqs.size, allocated := a.allocated + 1 }] }, r, d)
      else ar.allocFresh r d reqs
    | none => ar.allocFresh r d reqs

/-- Modelled from the spec: the retirement loop of `ArenaAllocator::free` —
pop arenas off the front of the FIFO while they are fully drained and not
the current allocation target, collecting their backing blocks
(spec section 4.3 step 2). -/
def retireArenas : List Arena → List Arena × List RawBlock
  | [] => ([], [])
  | [a] => ([a], [])
  | a :: rest =>
    if a.freed = a.allocated then
      let (l, bs) := retireArenas rest
      (l, a.block :: bs)
    else (a :: rest, [])

/-- Return a list of backing blocks to the `RootAllocator` one by one. -/
def RootAllocator.freeAll (r : RootAllocator) (d : Device) :
    List RawBlock → RRes Unit × RootAllocator × Device
  | [] => (.ok (), r, d)
  | b :: rest =>
    match r.free d b with
    | (.ok _, r', d') => r'.freeAll d' rest
    | (.err e, r', d') => (.err e, r', d')
    | (.fatal, r', d') => (.fatal, r', d')

/-- Modelled from the spec: `ArenaAllocator::free` — locate the arena by
its id, count the block as returned, then retire drained arenas from the
front of the FIFO, giving their backing blocks back to the owner
(spec section 4.3). -/
def ArenaAllocator.free (ar : ArenaAllocator) (r : RootAllocator) (d : Device)
    (b : ArenaBlock) : RRes Unit × ArenaAllocator × RootAllocator × Device :=
  match ar.arenas.findIdx? (fun a => a.id = b.tag) with
  | none => (.fatal, ar, r, d)
  | some i =>
    match ar.arenas[i]? with
    | none => (.fatal, ar, r, d)
    | some a =>
      let (arenas', retired) := retireArenas
        (ar.arenas.set i { a with freed := a.freed + 1 })
      match r.freeAll d retired with
      | (.ok _, r', d') => (.ok (), { ar with arenas := arenas' }, r', d')
      | (.err _, r', d') => (.fatal, { ar with arenas := arenas' }, r', d')
      | (.fatal, r', d') => (.fatal, { ar with arenas := arenas' }, r', d')

/-- The lifetime hint `Type` of src/combined.rs (`Type` is reserved in
Lean, hence `AllocType`). -/
inductive AllocType where
  | shortLived
  | general
deriving DecidableEq, Repr

/-- `CombinedTag` (src/combined.rs): discriminates the sub-allocator a
block must be freed to. -/
inductive CombinedTag where
  | arena : Nat → CombinedTag
  | chunked : Nat → CombinedTag
  | root : CombinedTag
deriving DecidableEq, Repr

/-- `CombinedBlock` (src/combined.rs). -/
structure CombinedBlock where
  raw : RawBlock
  tag : CombinedTag
deriving DecidableEq, Repr

/-- `Block::size()` of a `CombinedBlock`. -/
def CombinedBlock.size (b : CombinedBlock) : Nat := b.raw.size

/-- `CombinedAllocator` (src/combined.rs): one `RootAllocator` shared as
upstream of an arena and a chunked child. -/
structure CombinedAllocator where
  root : RootAllocator
  arenas : ArenaAllocator
  chunks : ChunkedAllocator
deriving DecidableEq, Repr

/-- `CombinedAllocator::new`. -/
def CombinedAllocator.new (memoryTypeId arenaSize chunksPerBlock minChunkSize
    maxChunkSize : Nat) : CombinedAllocator :=
  ⟨RootAllocator.new memoryTypeId,
   ⟨arenaSize, memoryTypeId, [], 0⟩,
   ChunkedAllocator.new chunksPerBlock minChunkSize maxChunkSize memoryTypeId⟩

/-- `CombinedAllocator::alloc`: `ShortLived` goes to the arena;
`General` goes to the root when `reqs.size > max_chunk_size` and to the
chunked allocator otherwise. -/
def CombinedAllocator.alloc (c : CombinedAllocator) (d : Device) (request : AllocType)
    (reqs : Requirements) : RRes CombinedBlock × CombinedAllocator × Device :=
  match request with
  | .shortLived =>
    match c.arenas.alloc c.root d reqs with
    | (.ok b, ar', r', d') => (.ok ⟨b.raw, .arena b.tag⟩, ⟨r', ar', c.chunks⟩, d')
    | (.err e, ar', r', d') => (.err e, ⟨r', ar', c.chunks⟩, d')
    | (.fatal, ar', r', d') => (.fatal, ⟨r', ar', c.chunks⟩, d')
  | .general =>
    if c.chunks.maxChunkSize < reqs.size then
      match c.root.alloc d reqs with
      | (.ok raw, r', d') => (.ok ⟨raw, .root⟩, ⟨r', c.arenas, c.chunks⟩, d')
      | (.err e, r', d') => (.err e, ⟨r', c.arenas, c.chunks⟩, d')
      | (.fatal, r', d') => (.fatal, ⟨r', c.arenas, c.chunks⟩, d')
    else
      match c.chunks.alloc c.root d reqs with
      | (.ok b, ch', r', d') => (.ok ⟨b.raw, .chunked b.tag⟩, ⟨r', c.arenas, ch'⟩, d')
      | (.err e, ch', r', d') => (.err e, ⟨r', c.arenas, ch'⟩, d')
      | (.fatal, ch', r', d') => (.fatal, ⟨r', c.arenas, ch'⟩, d')

/-- `CombinedAllocator::free`: dispatch on the tag. -/
def CombinedAllocator.free (c : CombinedAllocator) (d : Device) (b : CombinedBlock) :
    RRes Unit × CombinedAllocator × Device :=
  match b.tag with
  | .arena tag =>
    match c.arenas.free c.root d ⟨b.raw, tag⟩ with
    | (res, ar', r', d') => (res, ⟨r', ar', c.chunks⟩, d')
  | .chunked tag =>
    match c.chunks.free c.root d ⟨b.raw, tag⟩ with
    | (res, ch', r', d') => (res, ⟨r', c.arenas, ch'⟩, d')
  | .root =>
    match c.root.free d b.raw with
    | (res, r', d') => (res, ⟨r', c.arenas, c.chunks⟩, d')

/-- `CombinedAllocator::is_used`: whether either child is used, with
`assert_eq!(used, self.root.is_used())`. -/
def CombinedAllocator.isUsed (c : CombinedAllocator) : RRes Bool :=
  let used := c.arenas.isUsed || c.chunks.isUsed
  if used = c.root.isUsed then .ok used else .fatal

/-- `gfx_hal::MemoryType`: a property flag bitset and the index of the heap
the type draws from. -/
structure MemoryType where
  properties : Nat
  heapIndex : Nat
deriving DecidableEq, Repr

/-- `Heap` (src/smart.rs). -/
structure Heap where
  size : Nat
  used : Nat
deriving DecidableEq, Repr

/-- `Heap::available`: `self.size - self.used` (u64, wraps on underflow in
release mode). -/
def Heap.available (h : Heap) : Nat := wsub h.size h.used

/-- `Heap::alloc`: `self.used += size`. -/
def Heap.alloc (h : Heap) (size : Nat) : Heap :=
  { h with used := (h.used + size) % U64 }

/-- `Heap::free`: `self.used -= size`. -/
def Heap.free (h : Heap) (size : Nat) : Heap :=
  { h with used := wsub h.used size }

/-- `SmartBlock` (src/smart.rs): a `CombinedBlock` tagged with the memory
type index it came from. -/
structure SmartBlock where
  cb : CombinedBlock
  tag : Nat
deriving DecidableEq, Repr

/-- `Block::size()` of a `SmartBlock`. -/
def SmartBlock.size (b : SmartBlock) : Nat := b.cb.size

/-- `SmartAllocator` (src/smart.rs). -/
structure SmartAllocator where
  allocators : List (MemoryType × CombinedAllocator)
  heaps : List Heap
deriving DecidableEq, Repr

/-- `SmartAllocator::new`: one `CombinedAllocator` per advertised memory
type (indexed in order), one `Heap` per advertised heap size. -/
def SmartAllocator.new (memoryTypes : List MemoryType) (memoryHeaps : List Nat)
    (arenaSize chunksPerBlock minChunkSize maxChunkSize : Nat) : SmartAllocator :=
  ⟨memoryTypes.enum.map (fun p =>
      (p.2, CombinedAllocator.new p.1 arenaSize chunksPerBlock minChunkSize maxChunkSize)),
   memoryHeaps.map (fun size => ⟨size, 0⟩)⟩

/-- The compatibility filter of `SmartAllocator::alloc`:
`((1 << index) & reqs.type_mask) == (1 << index)` and
`memory_type.properties.contains(prop)`. -/
def compatibleType (index : Nat) (mt : MemoryType) (prop : Nat) (reqs : Requirements) : Bool :=
  (2 ^ index &&& reqs.typeMask == 2 ^ index) && (mt.properties &&& prop == prop)

/-- The type-selection loop of `SmartAllocator::alloc`: the first
compatible type whose heap has `available() >= reqs.size + reqs.alignment`
(u64 sum); `count` is the number of compatible types examined
(`compatible_count`), deciding which error is reported at the end. -/
def smartPickGo (heaps : List Heap) (prop : Nat) (reqs : Requirements) :
    List (MemoryType × CombinedAllocator) → Nat → Nat → RRes Nat
  | [], _, count => .err (if count = 0 then .NoCompatibleMemoryType else .OutOfMemory)
  | (mt, _) :: rest, index, count =>
    if compatibleType index mt prop reqs then
      match heaps[mt.heapIndex]? with
      | none => .fatal
      | some hp =>
        if (reqs.size + reqs.alignment) % U64 ≤ hp.available then .ok index
        else smartPickGo heaps prop reqs rest (index + 1) (count + 1)
    else smartPickGo heaps prop reqs rest (index + 1) count

/-- `SmartAllocator::alloc`: select a memory type, forward to its
`CombinedAllocator`, and on success charge `block.size()` to the type's
heap. -/
def SmartAllocator.alloc (s : SmartAllocator) (d : Device) (ty : AllocType) (prop : Nat)
    (reqs : Requirements) : RRes SmartBlock × SmartAllocator × Device :=
  match smartPickGo s.heaps prop reqs s.allocators 0 0 with
  | .err e => (.err e, s, d)
  | .fatal => (.fatal, s, d)
  | .ok index =>
    match s.allocators[index]? with
    | none => (.fatal, s, d)
    | some (mt, al) =>
      match al.alloc d ty reqs with
      | (.ok b, al', d') =>
        match s.heaps[mt.heapIndex]? with
        | none => (.fatal, { s with allocators := s.allocators.set index (mt, al') }, d')
        | some hp =>
          (.ok ⟨b, index⟩,
            ⟨s.allocators.set index (mt, al'),
             s.heaps.set mt.heapIndex (hp.alloc b.size)⟩, d')
      | (.err e, al', d') =>
        (.err e, { s with allocators := s.allocators.set index (mt, al') }, d')
      | (.fatal, al', d') =>
        (.fatal, { s with allocators := s.allocators.set index (mt, al') }, d')

/-- `SmartAllocator::free`: credit the heap of the block's memory type by
`block.size()`, then delegate to that type's `CombinedAllocator`. -/
def SmartAllocator.free (s : SmartAllocator) (d : Device) (b : SmartBlock) :
    RRes Unit × SmartAllocator × Device :=
  match s.allocators[b.tag]? with
  | none => (.fatal, s, d)
  | some (mt, al) =>
    match s.heaps[mt.heapIndex]? with
    | none => (.fatal, s, d)
    | some hp =>
      let heaps' := s.heaps.set mt.heapIndex (hp.free b.size)
      match al.free d b.cb with
      | (.ok _, al', d') => (.ok (), ⟨s.allocators.set b.tag (mt, al'), heaps'⟩, d')
      | (.err _, al', d') => (.fatal, ⟨s.allocators.set b.tag (mt, al'), heaps'⟩, d')
      | (.fatal, al', d') => (.fatal, ⟨s.allocators.set b.tag (mt, al'), heaps'⟩, d')

/-- Well-formedness of one size-class node at index `idx` of a chunked
allocator with minimal chunk size `m`: the fields mirror the allocator's
configuration and the free queue holds only in-range chunk indices.  Every
state produced by `ChunkedAllocator::new` and reachable through small
requests satisfies it. -/
def ChunkedNode.WF (m idx cpb id : Nat) (n : ChunkedNode) : Prop :=
  n.chunkSize = m * 2 ^ idx ∧ n.chunksPerBlock = cpb ∧ n.id = id ∧
  n.chunkSize * cpb < U64 ∧
  ∀ p ∈ n.free, p.2 < cpb

/-- Well-formedness of a `ChunkedAllocator` state: a positive `u64` minimal
chunk size and node `i` configured for size class `i`. -/
def ChunkedAllocator.WF (c : ChunkedAllocator) : Prop :=
  0 < c.minChunkSize ∧ c.minChunkSize < U64 ∧
  ∀ i (h : i < c.nodes.length),
    ChunkedNode.WF c.minChunkSize i c.chunksPerBlock c.id c.nodes[i]

/-- The three sub-allocators of a `CombinedAllocator` carry the memory type
id it was built with (`CombinedAllocator::new` hands the same id to all). -/
def CombinedAllocator.WFIds (id : Nat) (c : CombinedAllocator) : Prop :=
  c.root.id = id ∧ c.arenas.id = id ∧ c.chunks.id = id ∧
  ∀ n ∈ c.chunks.nodes, n.id = id

/-- Well-formedness of a `SmartAllocator` state: every memory type points
at an existing heap and the combined allocator at index `i` is configured
for memory type `i` (as `SmartAllocator::new` builds them). -/
def SmartAllocator.WF (s : SmartAllocator) : Prop :=
  ∀ i (h : i < s.allocators.length),
    s.allocators[i].1.heapIndex < s.heaps.length ∧
    CombinedAllocator.WFIds i s.allocators[i].2

/-- `WFIds` is a decidable conjunction (it unfolds to equalities and a
bounded quantifier). -/
instance (id : Nat) (c : CombinedAllocator) : Decidable (CombinedAllocator.WFIds id c) :=
  inferInstanceAs (Decidable (c.root.id = id ∧ c.arenas.id = id ∧ c.chunks.id = id ∧
    ∀ n ∈ c.chunks.nodes, n.id = id))

/-- `SmartAllocator.WF` is decidable: a bounded quantifier over decidable
conjuncts. -/
instance (s : SmartAllocator) : Decidable s.WF :=
  inferInstanceAs (Decidable (∀ i (h : i < s.allocators.length),
    s.allocators[i].1.heapIndex < s.heaps.length ∧
    CombinedAllocator.WFIds i s.allocators[i].2))

/-- The heap a `SmartBlock` is charged to: the `heap_index` of its memory
type. -/
def chargedHeap (s : SmartAllocator) (b : SmartBlock) : Option Nat :=
  (s.allocators[b.tag]?).map (fun p => p.1.heapIndex)

/-- Sum of `size()` over the live blocks charged to heap `h`. -/
def chargedSum (s : SmartAllocator) (live : List SmartBlock) (h : Nat) : Nat :=
  (live.filter (fun b => chargedHeap s b == some h)).foldr (fun b acc => b.size + acc) 0

/-- One externally observable `SmartAllocator` operation. -/
inductive SmartOp where
  | alloc : AllocType → Nat → Requirements → SmartOp
  | free : Nat → SmartOp

/-- A running `SmartAllocator` together with its device and the blocks it
has issued and not yet been given back (`live`). -/
structure SmartTrace where
  smart : SmartAllocator
  device : Device
  live : List SmartBlock

/-- Execute one operation; `none` means the program aborted (a Rust panic,
or freeing a block that was never issued). -/
def SmartTrace.step (st : SmartTrace) : SmartOp → Option SmartTrace
  | .alloc ty prop reqs =>
    match st.smart.alloc st.device ty prop reqs with
    | (.ok b, s', d') => some ⟨s', d', st.live ++ [b]⟩
    | (.err _, s', d') => some ⟨s', d', st.live⟩
    | (.fatal, _, _) => none
  | .free i =>
    match st.live[i]? with
    | none => none
    | some b =>
      match st.smart.free st.device b with
      | (.ok _, s', d') => some ⟨s', d', st.live.eraseIdx i⟩
      | (.err _, _, _) => none
      | (.fatal, _, _) => none

/-- Execute a sequence of operations. -/
def SmartTrace.run (st : SmartTrace) : List SmartOp → Option SmartTrace
  | [] => some st
  | op :: ops =>
    match st.step op with
    | none => none
    | some st' => st'.run ops

/-- A freshly constructed `SmartAllocator` with no outstanding blocks. -/
def SmartTrace.init (memoryTypes : List MemoryType) (memoryHeaps : List Nat)
    (arenaSize chunksPerBlock minChunkSize maxChunkSize : Nat)
    (plan : Nat → Option DeviceError) : SmartTrace :=
  ⟨SmartAllocator.new memoryTypes memoryHeaps arenaSize chunksPerBlock
      minChunkSize maxChunkSize,
    ⟨plan, 0⟩, []⟩

/-- The heap-accounting invariant: each heap's `used` counter equals the
(u64-wrapped) sum of the sizes of the live blocks charged to it. -/
def SmartTrace.HeapInv (st : SmartTrace) : Prop :=
  ∀ h hp, st.smart.heaps[h]? = some hp →
    hp.used < U64 ∧ hp.used = chargedSum st.smart st.live h % U64

/-- A device on which every allocation succeeds. -/
def devOK : Device := ⟨fun _ => none, 0⟩

/-- Memory type `i` is compatible with the request: its bit is set in
`reqs.type_mask` and its property flags contain `prop` (the first filter
of `SmartAllocator::alloc`). -/
def SmartAllocator.compatibleAt (s : SmartAllocator) (prop : Nat) (reqs : Requirements)
    (i : Nat) : Prop :=
  ∃ p, s.allocators[i]? = some p ∧ compatibleType i p.1 prop reqs = true

/-- Memory type `i` is feasible: its heap exists and has
`available() ≥ reqs.size + reqs.alignment` (the second filter of
`SmartAllocator::alloc`, with the `u64` sum). -/
def SmartAllocator.feasibleAt (s : SmartAllocator) (reqs : Requirements) (i : Nat) : Prop :=
  ∃ p hp, s.allocators[i]? = some p ∧ s.heaps[p.1.heapIndex]? = some hp ∧
    (reqs.size + reqs.alignment) % U64 ≤ hp.available

theorem U64_pos : 0 < U64 := by norm_num [U64]

theorem bitlenAux_le_fuel : ∀ f n, bitlenAux f n ≤ f := by
  intro f
  induction f with
  | zero => intro n; simp [bitlenAux]
  | succ f ih =>
    intro n
    rw [bitlenAux]
    split
    · exact Nat.zero_le _
    · exact Nat.succ_le_succ (ih _)

theorem bitlenAux_le_iff : ∀ f k n, n < 2 ^ f → (bitlenAux f n ≤ k ↔ n < 2 ^ k) := by
  intro f
  induction f with
  | zero =>
    intro k n h
    have hn : n = 0 := by simpa using h
    subst hn
    simp [bitlenAux, Nat.pos_pow_of_pos]
  | succ f ih =>
    intro k n h
    rw [bitlenAux]
    by_cases hn : n = 0
    · subst hn
      simp [Nat.pos_pow_of_pos]
    · rw [if_neg hn]
      cases k with
      | zero =>
        simp only [pow_zero, Nat.lt_one_iff]
        omega
      | succ k =>
        have hdiv : n / 2 < 2 ^ f := by
          rw [Nat.div_lt_iff_lt_mul (by norm_num)]
          calc n < 2 ^ (f + 1) := h
          _ = 2 ^ f * 2 := by rw [pow_succ]
        rw [Nat.succ_le_succ_iff, ih k (n / 2) hdiv,
          Nat.div_lt_iff_lt_mul (by norm_num : (0:Nat) < 2), ← pow_succ]

/-- The value computed by `pick_node` is the least `k` with
`size ≤ min_chunk_size * 2^k`. -/
theorem pickVal_le_iff {m s : Nat} (hm : 0 < m) (hs : 0 < s) (hbound : s ≤ 2 ^ 64)
    (k : Nat) : 64 - leadingZeros64 ((s - 1) / m) ≤ k ↔ s ≤ m * 2 ^ k := by
  have hq : (s - 1) / m < 2 ^ 64 :=
    lt_of_le_of_lt (Nat.div_le_self _ _) (by omega)
  have hval : 64 - leadingZeros64 ((s - 1) / m) = bitlenAux 64 ((s - 1) / m) := by
    have := bitlenAux_le_fuel 64 ((s - 1) / m)
    unfold leadingZeros64
    omega
  rw [hval, bitlenAux_le_iff 64 k _ hq, Nat.div_lt_iff_lt_mul hm,
    mul_comm (2 ^ k) m]
  omega

/-- `pick_node` recomputes exactly `k` from the chunk size of class `k`. -/
theorem pickVal_chunk {m k : Nat} (hm : 0 < m) (hb : m * 2 ^ k ≤ 2 ^ 64) :
    64 - leadingZeros64 ((m * 2 ^ k - 1) / m) = k := by
  have hs : 0 < m * 2 ^ k := Nat.mul_pos hm (Nat.pos_pow_of_pos _ (by norm_num))
  have h1 : 64 - leadingZeros64 ((m * 2 ^ k - 1) / m) ≤ k :=
    (pickVal_le_iff hm hs hb k).mpr le_rfl
  cases k with
  | zero => omega
  | succ j =>
    have h2 : ¬ 64 - leadingZeros64 ((m * 2 ^ (j + 1) - 1) / m) ≤ j := by
      rw [pickVal_le_iff hm hs hb j]
      have : m * 2 ^ j < m * 2 ^ (j + 1) := by
        have h2j : (2:Nat) ^ j < 2 ^ (j + 1) := Nat.pow_lt_pow_right (by norm_num) (by omega)
        exact (Nat.mul_lt_mul_left hm).mpr h2j
      omega
    omega

theorem pickNode_eq_ok {c : ChunkedAllocator} {s k : Nat} :
    c.pickNode s = .ok k ↔
      s ≠ 0 ∧ c.minChunkSize ≠ 0 ∧
      k = 64 - leadingZeros64 ((s - 1) / c.minChunkSize) := by
  unfold ChunkedAllocator.pickNode
  split
  · simp_all
  · split
    · simp_all
    · constructor
      · intro h
        injection h with h
        simp_all [eq_comm]
      · rintro ⟨-, -, rfl⟩
        rfl

/-- Setting a list entry to the value it already holds is the identity. -/
theorem List.set_of_getElem? {α : Type} :
    ∀ {l : List α} {i : Nat} {a : α}, l[i]? = some a → l.set i a = l := by
  intro l
  induction l with
  | nil => intro i a h; simp at h
  | cons x t ih =>
    intro i a h
    cases i with
    | zero => simp_all
    | succ i =>
      simp only [List.getElem?_cons_succ] at h
      simp [List.set_cons_succ, ih h]

theorem wsub_eq_sub {a b : Nat} (hb : b ≤ a) (ha : a < U64) : wsub a b = a - b := by
  unfold wsub U64 at *
  omega

theorem wsub_one_eq {a : Nat} (h1 : 0 < a) (h2 : a < U64) : wsub a 1 = a - 1 := by
  unfold wsub U64 at *
  omega

/-- Crediting back one summand of a wrapped sum. -/
theorem wsub_mod_add (y x : Nat) : wsub ((y + x) % U64) y = x % U64 := by
  unfold wsub U64
  omega

theorem alignmentShift_zero (a : Nat) : alignmentShift a 0 = 0 := by
  simp [alignmentShift]

/-- Anatomy of a successful `ChunkedNode::alloc_no_grow` pop. -/
theorem ChunkedNode.allocNoGrow_ok_spec
    {n n' : ChunkedNode} {blk : ChunkedBlock}
    (h : n.allocNoGrow = .ok (some (blk, n'))) :
    ∃ bi ci rest b0, n.free = (bi, ci) :: rest ∧ n.blocks[bi]? = some b0 ∧
      blk = ⟨⟨b0.memory, ⟨(ci * n.chunkSize) % U64,
        (n.chunkSize + ci * n.chunkSize) % U64⟩⟩, bi⟩ ∧
      n' = { n with free := rest } := by
  cases hfree : n.free with
  | nil => simp [ChunkedNode.allocNoGrow, hfree] at h
  | cons p rest =>
    obtain ⟨bi, ci⟩ := p
    cases hb : n.blocks[bi]? with
    | none => simp [ChunkedNode.allocNoGrow, hfree, hb] at h
    | some b0 =>
      simp only [ChunkedNode.allocNoGrow, hfree, hb] at h
      obtain ⟨h1, h2⟩ := by simpa using h
      exact ⟨bi, ci, rest, b0, rfl, hb, h1.symm, h2.symm⟩

/-- Anatomy of a successful `ChunkedNode::grow`: the capacity assertion
forces the backing request not to wrap, so exactly one fresh device block
of `chunk_size * chunks_per_block` bytes is appended and all its chunk
indices are queued. -/
theorem ChunkedNode.grow_ok_spec
    {n n₁ : ChunkedNode} {r r₁ : RootAllocator} {d d₁ : Device} {u : Unit}
    (hcs : 0 < n.chunkSize)
    (h : n.grow r d = (.ok u, n₁, r₁, d₁)) :
    n.chunkSize * n.chunksPerBlock < U64 ∧
    d.plan d.next = none ∧
    n₁ = { n with
      free := n.free ++ (List.range n.chunksPerBlock).map (fun i => (n.blocks.length, i)),
      blocks := n.blocks ++ [⟨d.next, ⟨0, n.chunkSize * n.chunksPerBlock⟩⟩] } ∧
    r₁ = ⟨r.id, r.allocations + 1⟩ ∧ d₁ = { d with next := d.next + 1 } := by
  cases hp : d.plan d.next with
  | some e => simp [ChunkedNode.grow, RootAllocator.alloc, Device.allocateMemory, hp] at h
  | none =>
    simp only [ChunkedNode.grow, RootAllocator.alloc, Device.allocateMemory, hp,
      alignmentShift_zero, ne_eq, not_true_eq_false, not_false_eq_true, if_false,
      ite_not, RawBlock.size] at h
    split at h
    case isFalse hcap => exact absurd h (by simp)
    case isTrue hcap =>
    have hlt : (n.chunkSize * n.chunksPerBlock) % U64 < U64 := Nat.mod_lt _ U64_pos
    have hnowrap : n.chunkSize * n.chunksPerBlock < U64 := by
      by_contra hw
      push_neg at hw
      have hcomm : n.chunksPerBlock * n.chunkSize = n.chunkSize * n.chunksPerBlock :=
        Nat.mul_comm _ _
      have hdiv : (n.chunkSize * n.chunksPerBlock % U64 - 0) / n.chunkSize <
          n.chunksPerBlock := by
        rw [Nat.div_lt_iff_lt_mul hcs, hcomm]
        omega
      omega
    rw [Nat.mod_eq_of_lt hnowrap] at h hcap
    obtain ⟨h1, h2, h3⟩ := by simpa [Prod.ext_iff] using h
    exact ⟨hnowrap, rfl, h1.symm, h2.symm, h3.symm⟩

/-- Anatomy of a successful `ChunkedNode::alloc`: the type mask matched,
the alignment assertion held, and the returned block is exactly one chunk
(`chunk_size` bytes at a `chunk_size`-multiple offset, without `u64`
wrap-around) whose tag indexes a backing block of the node carrying the
block's memory identity.  The free-queue hypothesis `hq` holds trivially
for a freshly created node and is supplied by `ChunkedNode.WF` otherwise. -/
theorem ChunkedNode.node_alloc_ok_spec
    {n n' : ChunkedNode} {r r' : RootAllocator} {d d' : Device} {reqs : Requirements}
    {b : ChunkedBlock}
    (hcs : 0 < n.chunkSize)
    (hq : n.free = [] ∨
      (n.chunkSize * n.chunksPerBlock < U64 ∧ ∀ p ∈ n.free, p.2 < n.chunksPerBlock))
    (h : n.alloc r d reqs = (.ok b, n', r', d')) :
    (2 ^ n.id &&& reqs.typeMask == 0) = false ∧
    b.raw.range.start &&& wsub reqs.alignment 1 = 0 ∧
    n'.chunkSize = n.chunkSize ∧ n'.id = n.id ∧ n'.chunksPerBlock = n.chunksPerBlock ∧
    ∃ ci blk, b.raw.range.start = ci * n.chunkSize ∧
      b.raw.range.stop = n.chunkSize + b.raw.range.start ∧
      b.raw.range.stop < U64 ∧
      n'.blocks[b.tag]? = some blk ∧ blk.memory = b.raw.memory := by
  cases hmask : (2 ^ n.id &&& reqs.typeMask == 0) with
  | true => simp [ChunkedNode.alloc, hmask] at h
  | false =>
  refine ⟨rfl, ?_⟩
  cases hng : n.allocNoGrow with
  | ok o =>
    cases o with
    | some p =>
      -- fast path: a chunk was popped and both assertions were checked
      obtain ⟨blk, n₁⟩ := p
      simp only [ChunkedNode.alloc, hmask, Bool.false_eq_true, if_false, hng] at h
      obtain ⟨bi, ci, rest, b0, hfree, hblocks, hblk, hn₁⟩ :=
        ChunkedNode.allocNoGrow_ok_spec hng
      rcases hq with hq | ⟨hbound, hmem⟩
      · rw [hq] at hfree; exact absurd hfree (by simp)
      have hci : ci < n.chunksPerBlock := hmem _ (hfree ▸ List.mem_cons_self _ _)
      have hlt : ci * n.chunkSize + n.chunkSize < U64 := by
        have h1 : (ci + 1) * n.chunkSize ≤ n.chunksPerBlock * n.chunkSize :=
          Nat.mul_le_mul_right _ hci
        have h2 : (ci + 1) * n.chunkSize = ci * n.chunkSize + n.chunkSize := by ring
        have h3 : n.chunksPerBlock * n.chunkSize = n.chunkSize * n.chunksPerBlock := by ring
        omega
      have hoff : (ci * n.chunkSize) % U64 = ci * n.chunkSize :=
        Nat.mod_eq_of_lt (by omega)
      split at h
      · exact absurd h (by simp)
      case isFalse hsz =>
      split at h
      · exact absurd h (by simp)
      case isFalse halign =>
      obtain ⟨hb, hn', hr', hd'⟩ := by simpa [Prod.ext_iff] using h
      subst hn' hb
      push_neg at halign
      subst hblk hn₁
      refine ⟨by simpa using halign, rfl, rfl, rfl, ci, b0, by simpa using hoff, ?_, ?_,
        by simpa using hblocks, rfl⟩
      · simp only [hoff]
        exact Nat.mod_eq_of_lt (by omega)
      · simp only [hoff]
        rw [Nat.mod_eq_of_lt (by omega)]
        omega
    | none =>
      -- grow path: the queue was empty; chunk 0 of the fresh block is taken
      have hfree : n.free = [] := by
        unfold ChunkedNode.allocNoGrow at hng
        split at hng
        · assumption
        · split at hng <;> simp at hng
      simp only [ChunkedNode.alloc, hmask, Bool.false_eq_true, if_false, hng] at h
      split at h
      case h_2 e n₁ r₁ d₁ hgrow => exact absurd h (by simp)
      case h_3 n₁ r₁ d₁ hgrow => exact absurd h (by simp)
      case h_1 u n₁ r₁ d₁ hgrow =>
      obtain ⟨hnowrap, hplan, hn₁, hr₁, hd₁⟩ := ChunkedNode.grow_ok_spec hcs hgrow
      cases hng₂ : n₁.allocNoGrow with
      | ok o₂ =>
        cases o₂ with
        | some p₂ =>
          obtain ⟨blk, n₂⟩ := p₂
          simp only [hng₂] at h
          obtain ⟨bi, ci, rest, b0, hfree₂, hblocks₂, hblk, hn₂⟩ :=
            ChunkedNode.allocNoGrow_ok_spec hng₂
          -- the fresh queue starts with chunk 0 of the appended block
          have hcpb : n.chunksPerBlock ≠ 0 := by
            intro h0
            rw [hn₁, h0] at hfree₂
            simp [hfree] at hfree₂
          obtain ⟨cpb, hcpbe⟩ := Nat.exists_eq_succ_of_ne_zero hcpb
          have hhead : bi = n.blocks.length ∧ ci = 0 := by
            rw [hn₁, hfree, hcpbe, List.range_succ_eq_map, List.map_cons] at hfree₂
            simp only [List.nil_append, List.cons.injEq] at hfree₂
            obtain ⟨hp, -⟩ := hfree₂
            exact ⟨(Prod.mk.injEq .. ▸ hp).1.symm, (Prod.mk.injEq .. ▸ hp).2.symm⟩
          obtain ⟨hbi, hci⟩ := hhead
          have hb0 : b0 = ⟨d.next, ⟨0, n.chunkSize * n.chunksPerBlock⟩⟩ := by
            rw [hn₁, hbi] at hblocks₂
            simp only at hblocks₂
            rw [List.getElem?_concat_length] at hblocks₂
            injection hblocks₂ with hb0
            exact hb0.symm
          obtain ⟨hb, hn', hr', hd'⟩ := by simpa [Prod.ext_iff] using h
          subst hn' hb
          have hcslt : n.chunkSize < U64 := by
            have : n.chunkSize * 1 ≤ n.chunkSize * n.chunksPerBlock :=
              Nat.mul_le_mul_left _ (by omega)
            omega
          have hn₁cs : n₁.chunkSize = n.chunkSize := by rw [hn₁]
          subst hblk hn₂
          refine ⟨?_, by simp [hn₁cs], by simp [hn₁], by simp [hn₁], ci, b0, ?_, ?_, ?_, ?_, ?_⟩
          · simp [hci, Nat.zero_and]
          · simp [hci, hn₁cs]
          · simp [hci, hn₁cs, Nat.mod_eq_of_lt hcslt]
          · simp [hci, hn₁cs, Nat.mod_eq_of_lt hcslt]
            omega
          · simpa [hn₁cs] using hblocks₂
          · simp [hb0, hci]
        | none => simp only [hng₂] at h; exact absurd h (by simp)
      | err e => simp only [hng₂] at h; exact absurd h (by simp)
      | fatal => simp only [hng₂] at h; exact absurd h (by simp)
  | err e => simp [ChunkedNode.alloc, hmask, hng] at h
  | fatal => simp [ChunkedNode.alloc, hmask, hng] at h

/-- Anatomy of a successful `ChunkedAllocator::alloc` over a well-formed
state (with the `u64`-level preconditions `max_chunk_size ≤ 2^63` and
`alignment ≤ 2^63`, both implied by the crate's power-of-two contract):
the request is routed to the class `k` of `max(size, alignment)`, the
returned block is exactly one chunk of that class, and the post-state
holds the served node at index `k`. -/
theorem ChunkedAllocator.chunked_alloc_ok_spec
    {c c' : ChunkedAllocator} {r r' : RootAllocator} {d d' : Device}
    {reqs : Requirements} {b : ChunkedBlock}
    (hWF : c.WF) (hmax : c.maxChunkSize ≤ 2 ^ 63) (halign : reqs.alignment ≤ 2 ^ 63)
    (h : c.alloc r d reqs = (.ok b, c', r', d')) :
    ∃ k n',
      c.pickNode (max reqs.size reqs.alignment) = .ok k ∧
      k ≤ 63 ∧
      c.minChunkSize * 2 ^ k < U64 ∧
      max reqs.size reqs.alignment ≤ c.minChunkSize * 2 ^ k ∧
      reqs.size ≤ c.maxChunkSize ∧
      chunkSizeAt c.minChunkSize (k + 1) ≤ c.maxChunkSize ∧
      (2 ^ c.id &&& reqs.typeMask == 0) = false ∧
      b.raw.range.start &&& wsub reqs.alignment 1 = 0 ∧
      (∃ ci, b.raw.range.start = ci * (c.minChunkSize * 2 ^ k)) ∧
      b.raw.range.stop = c.minChunkSize * 2 ^ k + b.raw.range.start ∧
      b.raw.range.stop < U64 ∧
      c'.id = c.id ∧ c'.chunksPerBlock = c.chunksPerBlock ∧
      c'.minChunkSize = c.minChunkSize ∧ c'.maxChunkSize = c.maxChunkSize ∧
      k + 2 ≤ c'.nodes.length ∧
      c'.nodes[k]? = some n' ∧
      c'.nodes.set k n' = c'.nodes ∧
      n'.chunkSize = c.minChunkSize * 2 ^ k ∧
      n'.id = c.id ∧
      (∃ blk, n'.blocks[b.tag]? = some blk ∧ blk.memory = b.raw.memory) := by
  obtain ⟨hm0, hmU, hnodes⟩ := hWF
  by_cases hguard : c.maxChunkSize < reqs.size
  · simp [ChunkedAllocator.alloc, hguard] at h
  rw [ChunkedAllocator.alloc, if_neg hguard] at h
  push_neg at hguard
  cases hpick : c.pickNode (max reqs.size reqs.alignment) with
  | err e => simp [hpick] at h
  | fatal => simp [hpick] at h
  | ok k =>
  simp only [hpick] at h
  obtain ⟨hs0, -, hkval⟩ := pickNode_eq_ok.mp hpick
  have hsle : max reqs.size reqs.alignment ≤ 2 ^ 63 := max_le (le_trans hguard hmax) halign
  have hspos : 0 < max reqs.size reqs.alignment := Nat.pos_of_ne_zero hs0
  have hsbound : max reqs.size reqs.alignment ≤ 2 ^ 64 :=
    le_trans hsle (by norm_num)
  have hupper : max reqs.size reqs.alignment ≤ c.minChunkSize * 2 ^ k := by
    rw [hkval]
    exact (pickVal_le_iff hm0 hspos hsbound _).mp le_rfl
  have hk63 : k ≤ 63 ∧ c.minChunkSize * 2 ^ k < U64 := by
    cases hk : k with
    | zero =>
      constructor
      · omega
      · simpa [U64] using hmU
    | succ j =>
      have hmin : ¬ (64 - leadingZeros64
          ((max reqs.size reqs.alignment - 1) / c.minChunkSize) ≤ j) := by omega
      rw [pickVal_le_iff hm0 hspos hsbound j] at hmin
      push_neg at hmin
      have hlow : c.minChunkSize * 2 ^ j < 2 ^ 63 := lt_of_lt_of_le hmin hsle
      have h2j : (2:Nat) ^ j ≤ c.minChunkSize * 2 ^ j :=
        le_mul_of_one_le_left (Nat.zero_le _) hm0
      have hj63 : j < 63 := by
        have := lt_of_le_of_lt h2j hlow
        exact (Nat.pow_lt_pow_iff_right (by norm_num)).mp this
      constructor
      · omega
      · rw [pow_succ]
        have : c.minChunkSize * (2 ^ j * 2) = c.minChunkSize * 2 ^ j * 2 := by ring
        rw [this]
        unfold U64
        calc c.minChunkSize * 2 ^ j * 2 < 2 ^ 63 * 2 := by omega
        _ = 2 ^ 64 := by norm_num
  obtain ⟨hk63, hcsU⟩ := hk63
  cases hgrow : c.grow (k + 1) with
  | err e => simp [hgrow] at h
  | fatal => simp [hgrow] at h
  | ok c₁ =>
  simp only [hgrow] at h
  rw [ChunkedAllocator.grow] at hgrow
  split at hgrow
  · exact absurd hgrow (by simp)
  next hgassert =>
  push_neg at hgassert
  have hc₁ : c₁ = { c with
      nodes := c.nodes ++ (List.range' c.nodes.length (k + 1 + 1 - c.nodes.length)).map
        (fun i => ChunkedNode.new (chunkSizeAt c.minChunkSize i) c.chunksPerBlock c.id) } := by
    injection hgrow with hgrow
    exact hgrow.symm
  have hlen : c₁.nodes.length = max c.nodes.length (k + 2) := by
    rw [hc₁]
    simp only [List.length_append, List.length_map, List.length_range']
    omega
  have hklen : k < c₁.nodes.length := by omega
  have hcsAt : chunkSizeAt c.minChunkSize k = c.minChunkSize * 2 ^ k := by
    unfold chunkSizeAt
    rw [Nat.mod_eq_of_lt (by omega : k < 64)]
    exact Nat.mod_eq_of_lt (by simpa [U64] using hcsU)
  -- the node at index k: either a pre-existing well-formed node or a fresh one
  obtain ⟨nk, hnk, hnkcs, hnkid, hnkq⟩ :
      ∃ nk, c₁.nodes[k]? = some nk ∧ nk.chunkSize = c.minChunkSize * 2 ^ k ∧
        nk.id = c.id ∧
        (nk.free = [] ∨ (nk.chunkSize * nk.chunksPerBlock < U64 ∧
          ∀ p ∈ nk.free, p.2 < nk.chunksPerBlock)) := by
    by_cases hkin : k < c.nodes.length
    · obtain ⟨hcs, hcpb, hid, hbound, hfree⟩ := hnodes k hkin
      refine ⟨c.nodes[k], ?_, hcs, hid, Or.inr ⟨by rw [hcpb]; exact hbound, ?_⟩⟩
      · rw [hc₁]
        simp only
        rw [List.getElem?_append_left hkin]
        exact List.getElem?_eq_getElem hkin
      · intro p hp
        rw [hcpb]
        exact hfree p hp
    · push_neg at hkin
      refine ⟨ChunkedNode.new (chunkSizeAt c.minChunkSize k) c.chunksPerBlock c.id,
        ?_, by simpa [ChunkedNode.new] using hcsAt, rfl, Or.inl rfl⟩
      rw [hc₁]
      simp only
      rw [List.getElem?_append_right hkin, List.getElem?_map,
        List.getElem?_range' _ _ (by omega : k - c.nodes.length < k + 1 + 1 - c.nodes.length)]
      have hidx : c.nodes.length + 1 * (k - c.nodes.length) = k := by omega
      simp only [Option.map_some', hidx]
  simp only [hnk] at h
  cases hna : nk.alloc r d reqs with
  | mk res rest =>
  obtain ⟨n₁, r₁, d₁⟩ := rest
  simp only [hna] at h
  cases res with
  | err e => simp at h
  | fatal => simp at h
  | ok blk =>
  obtain ⟨hb, hc', hr', hd'⟩ := by simpa [Prod.ext_iff] using h
  subst hb hr' hd'
  subst hc'
  have hcs0 : 0 < nk.chunkSize := by
    rw [hnkcs]
    exact Nat.mul_pos hm0 (Nat.pos_pow_of_pos _ (by norm_num))
  obtain ⟨hmask, halignok, hn₁cs, hn₁id, -, ci, bblk, hstart, hstop, hstopU, hblocks, hmemid⟩ :=
    ChunkedNode.node_alloc_ok_spec hcs0 hnkq hna
  refine ⟨k, n₁, rfl, hk63, hcsU, hupper, hguard, hgassert, ?_, ?_, ?_, ?_, ?_, ?_, ?_, ?_,
    ?_, ?_, ?_, ?_, ?_, ?_, ?_⟩
  · rw [hnkid] at hmask
    exact hmask
  · exact halignok
  · exact ⟨ci, by rw [hstart, hnkcs]⟩
  · rw [hstop, hnkcs]
  · exact hstopU
  · simp [hc₁]
  · simp [hc₁]
  · simp [hc₁]
  · simp [hc₁]
  · simp only [List.length_set]
    omega
  · simpa using List.getElem?_set_self hklen
  · simp only [List.set_set]
  · rw [hn₁cs, hnkcs]
  · rw [hn₁id, hnkid]
  · exact ⟨bblk, hblocks, hmemid⟩

/-- C1: the internal consistency assertion of `CombinedAllocator::is_used`
fails on the root path.  With `max_chunk_size = 4096`, allocating
`General` with `size = 8192` succeeds directly from the root (tag `Root`),
after which `arenas.is_used() || chunks.is_used()` is `false` while
`root.is_used()` is `true`, so `assert_eq!(used, root.is_used())` panics —
and `is_used` would report `false` although one issued block is
outstanding. -/
theorem c1_is_used_assertion_fails :
    ((CombinedAllocator.new 0 1024 2 64 4096).alloc devOK .general ⟨8192, 4, 1⟩).1 =
      .ok ⟨⟨0, ⟨0, 8192⟩⟩, .root⟩ ∧
    ((CombinedAllocator.new 0 1024 2 64 4096).alloc devOK .general
      ⟨8192, 4, 1⟩).2.1.isUsed = .fatal := by decide

/-- C2: a request of exactly `max_chunk_size` bytes is routed to the
largest size class (index 6 for `min = 64`, `max = 4096`), but `alloc`
then calls `grow(index + 1)` whose assertion
`chunk_size(7) = 8192 ≤ max_chunk_size` fails: the allocator panics
instead of serving the request from the largest class. -/
theorem c2_top_class_grow_assertion_fails :
    (ChunkedAllocator.new 4 64 4096 0).pickNode (max 4096 1) = .ok 6 ∧
    chunkSizeAt 64 (6 + 1) = 8192 ∧
    ((ChunkedAllocator.new 4 64 4096 0).alloc (RootAllocator.new 0) devOK
      ⟨4096, 1, 1⟩).1 = .fatal := by decide

/-- C3 (counterexample): the feasibility check does not bound the actual
charge.  One memory type over a heap of 100 bytes; a `General` request of
65 bytes (alignment 1) passes the check `available() = 100 ≥ 65 + 1 = 66`,
is served by the chunked allocator as a 128-byte chunk, and `alloc`
returns `Ok` with `heap.used = 128 > 100 = heap.size`. -/
theorem c3_heap_used_can_exceed_size :
    ((SmartAllocator.new [⟨0, 0⟩] [100] 1024 1 64 4096).alloc devOK .general 0
        ⟨65, 1, 1⟩).1 = .ok ⟨⟨⟨0, ⟨0, 128⟩⟩, .chunked 0⟩, 0⟩ ∧
    ((SmartAllocator.new [⟨0, 0⟩] [100] 1024 1 64 4096).alloc devOK .general 0
        ⟨65, 1, 1⟩).2.1.heaps = [⟨100, 128⟩] ∧
    ¬ (128 : Nat) ≤ 100 := by decide

/-- C7 (counterexample): after a single allocation, whose class is 0,
nodes 0 **and** 1 both exist (`grow(index + 1)` extends one class past the
one needed), so "node `k` exists iff an allocation in class `k` has ever
occurred" fails at `k = 1`. -/
theorem c7_node_one_past_class_exists :
    ((ChunkedAllocator.new 4 64 4096 0).alloc (RootAllocator.new 0) devOK
        ⟨40, 8, 1⟩).1 = .ok ⟨⟨0, ⟨0, 64⟩⟩, 0⟩ ∧
    (ChunkedAllocator.new 4 64 4096 0).pickNode (max 40 8) = .ok 0 ∧
    ((ChunkedAllocator.new 4 64 4096 0).alloc (RootAllocator.new 0) devOK
        ⟨40, 8, 1⟩).2.1.nodes.length = 2 := by decide

/-- C8 (counterexample): `alloc_no_grow` computes the chunk offset from
the start of the backing *memory*, not relative to the upstream block's
range.  For a node whose single backing block spans `[128, 384)` of memory
7, the popped chunk `(0, 0)` is returned as `[0, 64)` — not the
`[128 + 0, 128 + 64)` the claim requires for an upstream block that does
not start at offset 0. -/
theorem c8_offset_ignores_upstream_start :
    (ChunkedNode.mk 0 4 64 [(0, 0)] [⟨7, ⟨128, 384⟩⟩]).allocNoGrow =
      .ok (some (⟨⟨7, ⟨0, 64⟩⟩, 0⟩, ⟨0, 4, 64, [], [⟨7, ⟨128, 384⟩⟩]⟩)) ∧
    (0 : Nat) ≠ 128 + 0 := by decide

theorem wsub_pow_one {a : Nat} (ha : a ≤ 63) : wsub (2 ^ a) 1 = 2 ^ a - 1 := by
  have h1 : (2:Nat) ^ a ≤ 2 ^ 63 := Nat.pow_le_pow_right (by norm_num) ha
  have h2 : (0:Nat) < 2 ^ a := Nat.pos_pow_of_pos _ (by norm_num)
  unfold wsub U64
  omega

/-- C6: every block returned by a successful `RootAllocator::alloc`, or by
a successful `ChunkedAllocator::alloc` drawing on a `RootAllocator`
upstream from a well-formed state, satisfies
`block.range().start % reqs.alignment == 0` and `block.size() ≥ reqs.size`,
for a power-of-two alignment (at most `2^63`, the largest `u64` power of
two). -/
theorem c6_alignment_and_size
    {reqs : Requirements} {a : Nat} (ha : reqs.alignment = 2 ^ a) (ha63 : a ≤ 63) :
    (∀ (r r' : RootAllocator) (d d' : Device) (b : RawBlock),
      r.alloc d reqs = (.ok b, r', d') →
      b.range.start % reqs.alignment = 0 ∧ reqs.size ≤ b.size) ∧
    (∀ (c c' : ChunkedAllocator) (r r' : RootAllocator) (d d' : Device) (b : ChunkedBlock),
      c.WF → c.maxChunkSize ≤ 2 ^ 63 →
      c.alloc r d reqs = (.ok b, c', r', d') →
      b.raw.range.start % reqs.alignment = 0 ∧ reqs.size ≤ b.size) := by
  constructor
  · intro r r' d d' b h
    cases hp : d.plan d.next with
    | some e => simp [RootAllocator.alloc, Device.allocateMemory, hp] at h
    | none =>
      simp only [RootAllocator.alloc, Device.allocateMemory, hp] at h
      obtain ⟨hb, -, -⟩ := by simpa [Prod.ext_iff] using h
      rw [← hb]
      simp [RawBlock.size]
  · intro c c' r r' d d' b hWF hmax h
    have halign : reqs.alignment ≤ 2 ^ 63 := by
      rw [ha]
      exact Nat.pow_le_pow_right (by norm_num) ha63
    obtain ⟨k, n', hpick, hk63, hcsU, hupper, hszmax, hgassert, hmask, halignok,
      ⟨ci, hstart⟩, hstop, hstopU, -, -, -, -, -, -, -, -, -, -⟩ :=
      ChunkedAllocator.chunked_alloc_ok_spec hWF hmax halign h
    constructor
    · rw [ha] at halignok
      rw [wsub_pow_one ha63, Nat.and_pow_two_sub_one_eq_mod] at halignok
      rw [ha]
      exact halignok
    · have : reqs.size ≤ c.minChunkSize * 2 ^ k := le_trans (le_max_left _ _) hupper
      simp only [ChunkedBlock.size, RawBlock.size]
      omega

/-- Witness for C6 at a concrete input: `min_chunk_size = 64`,
`chunks_per_block = 1`, request `{size := 40, alignment := 8}`. -/
theorem c6_alignment_and_size_witness :
    (⟨⟨0, ⟨0, 64⟩⟩, 0⟩ : ChunkedBlock).raw.range.start %
      (⟨40, 8, 1⟩ : Requirements).alignment = 0 ∧
    (⟨40, 8, 1⟩ : Requirements).size ≤ (⟨⟨0, ⟨0, 64⟩⟩, 0⟩ : ChunkedBlock).size := by
  have h := (@c6_alignment_and_size ⟨40, 8, 1⟩ 3 (by norm_num)
      (by norm_num)).2
    (ChunkedAllocator.new 1 64 4096 0)
    ⟨0, 1, 64, 4096, [⟨0, 1, 64, [], [⟨0, ⟨0, 64⟩⟩]⟩, ⟨0, 1, 128, [], []⟩]⟩
    (RootAllocator.new 0) ⟨0, 1⟩ devOK ⟨fun _ => none, 1⟩ ⟨⟨0, ⟨0, 64⟩⟩, 0⟩
    ⟨by norm_num [ChunkedAllocator.new], by norm_num [ChunkedAllocator.new, U64],
      fun i hlt => absurd hlt (by simp [ChunkedAllocator.new])⟩
    (by norm_num [ChunkedAllocator.new]) rfl
  exact h

theorem pickNode_chunkSize {c : ChunkedAllocator} {k : Nat}
    (hm : 0 < c.minChunkSize) (hb : c.minChunkSize * 2 ^ k ≤ 2 ^ 64) :
    c.pickNode (c.minChunkSize * 2 ^ k) = .ok k := by
  rw [pickNode_eq_ok]
  have hpos : 0 < c.minChunkSize * 2 ^ k :=
    Nat.mul_pos hm (Nat.pos_pow_of_pos _ (by norm_num))
  exact ⟨by omega, by omega, (pickVal_chunk hm hb).symm⟩

theorem pickNode_congr {c c₂ : ChunkedAllocator} (h : c₂.minChunkSize = c.minChunkSize)
    (s : Nat) : c₂.pickNode s = c.pickNode s := by
  simp [ChunkedAllocator.pickNode, h]

/-- C9: round trip.  If `alloc(reqs)` on a well-formed state returns block
`b` with post-state `(c₁, r₁, d₁)`, then `free(b)` succeeds touching
neither the owner nor the device (the freed chunk goes to the front of
node `k`'s queue), and a second `alloc(reqs)` pops it again, returning the
same block `b` and restoring exactly the state `(c₁, r₁, d₁)` — in
particular with no new upstream backing block. -/
theorem c9_round_trip
    {c c₁ : ChunkedAllocator} {r r₁ : RootAllocator} {d d₁ : Device}
    {reqs : Requirements} {b : ChunkedBlock}
    (hWF : c.WF) (hmax : c.maxChunkSize ≤ 2 ^ 63) (halign : reqs.alignment ≤ 2 ^ 63)
    (h : c.alloc r d reqs = (.ok b, c₁, r₁, d₁)) :
    ∃ c₂, c₁.free r₁ d₁ b = (.ok (), c₂, r₁, d₁) ∧
      c₂.alloc r₁ d₁ reqs = (.ok b, c₁, r₁, d₁) := by
  obtain ⟨k, n', hpick, hk63, hcsU, hupper, hszmax, hgassert, hmask, halignok,
    ⟨ci, hstart⟩, hstop, hstopU, hid, hcpb, hmin, hmaxeq, hlen, hnk, hsetid, hncs, hnid,
    blk, hblocks, hmem⟩ := ChunkedAllocator.chunked_alloc_ok_spec hWF hmax halign h
  have hm0 : 0 < c.minChunkSize := hWF.1
  have hcs0 : 0 < c.minChunkSize * 2 ^ k :=
    Nat.mul_pos hm0 (Nat.pos_pow_of_pos _ (by norm_num))
  have hbsize : b.size = c.minChunkSize * 2 ^ k := by
    simp only [ChunkedBlock.size, RawBlock.size]
    omega
  obtain ⟨n₂, hn₂⟩ : ∃ n₂ : ChunkedNode,
      n₂ = ⟨n'.id, n'.chunksPerBlock, n'.chunkSize, (b.tag, ci) :: n'.free, n'.blocks⟩ :=
    ⟨_, rfl⟩
  obtain ⟨c₂, hc₂⟩ : ∃ c₂ : ChunkedAllocator, c₂ = { c₁ with nodes := c₁.nodes.set k n₂ } :=
    ⟨_, rfl⟩
  have hn₂free : n₂.free = (b.tag, ci) :: n'.free := by rw [hn₂]
  have hn₂blocks : n₂.blocks = n'.blocks := by rw [hn₂]
  have hn₂cs : n₂.chunkSize = n'.chunkSize := by rw [hn₂]
  have hn₂id : n₂.id = n'.id := by rw [hn₂]
  have hc₂nodes : c₂.nodes = c₁.nodes.set k n₂ := by rw [hc₂]
  have hc₂min : c₂.minChunkSize = c.minChunkSize := by rw [hc₂]; exact hmin
  have hc₂max : c₂.maxChunkSize = c.maxChunkSize := by rw [hc₂]; exact hmaxeq
  have hpick₁ : c₁.pickNode b.size = .ok k := by
    rw [hbsize, ← hmin]
    refine pickNode_chunkSize ?_ ?_
    · rw [hmin]; exact hm0
    · rw [hmin]; unfold U64 at hcsU; omega
  have hstartmod : b.raw.range.start % n'.chunkSize = 0 := by
    rw [hncs, hstart]
    exact Nat.mul_mod_left _ _
  have hstartdiv : b.raw.range.start / n'.chunkSize = ci := by
    rw [hncs, hstart]
    exact Nat.mul_div_cancel _ hcs0
  have hfreeblk : n'.freeBlock b = .ok n₂ := by
    have h1 : ¬ n'.chunkSize = 0 := by rw [hncs]; omega
    have h2 : ¬ b.raw.range.start % n'.chunkSize ≠ 0 := by rw [hstartmod]; simp
    have h3 : ¬ b.size ≠ n'.chunkSize := by rw [hbsize, hncs]; simp
    have h4 : ¬ blk.memory ≠ b.raw.memory := by rw [hmem]; simp
    rw [hn₂]
    simp only [ChunkedNode.freeBlock, if_neg h1, if_neg h2, if_neg h3, hblocks,
      if_neg h4, hstartdiv]
  have hfree : c₁.free r₁ d₁ b = (.ok (), c₂, r₁, d₁) := by
    rw [hc₂]
    simp only [ChunkedAllocator.free, hpick₁, hnk, hfreeblk]
  refine ⟨c₂, hfree, ?_⟩
  have hbstartU : b.raw.range.start < U64 := by omega
  have hstartval : (ci * n₂.chunkSize) % U64 = b.raw.range.start := by
    rw [hn₂cs, hncs, ← hstart]
    exact Nat.mod_eq_of_lt hbstartU
  have hstopval : (n₂.chunkSize + b.raw.range.start) % U64 = b.raw.range.stop := by
    rw [hn₂cs, hncs, ← hstop]
    exact Nat.mod_eq_of_lt hstopU
  have hblocks₂ : n₂.blocks[b.tag]? = some blk := by rw [hn₂blocks]; exact hblocks
  have hn₂reset : ChunkedNode.mk n₂.id n₂.chunksPerBlock n₂.chunkSize n'.free n₂.blocks
      = n' := by rw [hn₂]
  have hng₂ : n₂.allocNoGrow = .ok (some (b, n')) := by
    simp only [ChunkedNode.allocNoGrow, hn₂free, hblocks₂, hstartval, hstopval, hmem,
      hn₂reset]
  have hpick₂ : c₂.pickNode (max reqs.size reqs.alignment) = .ok k := by
    rw [pickNode_congr hc₂min]
    exact hpick
  have hgrow₂ : c₂.grow (k + 1) = .ok c₂ := by
    rw [ChunkedAllocator.grow]
    rw [if_neg (not_not_intro (by rw [hc₂min, hc₂max]; exact hgassert))]
    have hlen₂ : c₂.nodes.length = c₁.nodes.length := by rw [hc₂nodes, List.length_set]
    have hz : k + 1 + 1 - c₂.nodes.length = 0 := by omega
    simp [hz]
  have hklen : k < c₁.nodes.length := by omega
  have hnodes₂ : c₂.nodes[k]? = some n₂ := by
    rw [hc₂nodes]
    exact List.getElem?_set_self hklen
  have hna₂ : n₂.alloc r₁ d₁ reqs = (.ok b, n', r₁, d₁) := by
    have hmask₂ : (2 ^ n₂.id &&& reqs.typeMask == 0) = false := by
      rw [hn₂id, hnid]; exact hmask
    have hle : reqs.size ≤ b.size := by
      rw [hbsize]
      exact le_trans (le_max_left _ _) hupper
    simp only [ChunkedNode.alloc, hmask₂, Bool.false_eq_true, if_false, hng₂]
    rw [if_neg (not_not_intro hle), if_neg (not_not_intro halignok)]
  have hstruct : ChunkedAllocator.mk c₂.id c₂.chunksPerBlock c₂.minChunkSize
      c₂.maxChunkSize (c₂.nodes.set k n') = c₁ := by
    rw [hc₂]
    simp only [List.set_set]
    rw [hsetid]
  rw [ChunkedAllocator.alloc]
  rw [if_neg (not_lt.mpr (by rw [hc₂max]; exact hszmax))]
  simp only [hpick₂, hgrow₂, hnodes₂, hna₂, hstruct]

/-- Witness for C9 at a concrete input: `min_chunk_size = 64`,
`chunks_per_block = 1`, request `{size := 40, alignment := 8}`. -/
theorem c9_round_trip_witness :
    ∃ c₂, ChunkedAllocator.free
        ⟨0, 1, 64, 4096, [⟨0, 1, 64, [], [⟨0, ⟨0, 64⟩⟩]⟩, ⟨0, 1, 128, [], []⟩]⟩
        ⟨0, 1⟩ ⟨fun _ => none, 1⟩ ⟨⟨0, ⟨0, 64⟩⟩, 0⟩ =
      (.ok (), c₂, ⟨0, 1⟩, ⟨fun _ => none, 1⟩) ∧
      c₂.alloc ⟨0, 1⟩ ⟨fun _ => none, 1⟩ ⟨40, 8, 1⟩ =
        (.ok ⟨⟨0, ⟨0, 64⟩⟩, 0⟩,
          ⟨0, 1, 64, 4096, [⟨0, 1, 64, [], [⟨0, ⟨0, 64⟩⟩]⟩, ⟨0, 1, 128, [], []⟩]⟩,
          ⟨0, 1⟩, ⟨fun _ => none, 1⟩) :=
  c9_round_trip (c := ChunkedAllocator.new 1 64 4096 0) (r := RootAllocator.new 0)
    (d := devOK)
    ⟨by norm_num [ChunkedAllocator.new], by norm_num [ChunkedAllocator.new, U64],
      fun i hlt => absurd hlt (by simp [ChunkedAllocator.new])⟩
    (by norm_num [ChunkedAllocator.new]) (by norm_num) rfl

/-- C5: size-class routing.  (i) `pick_node` assigns class 0 exactly to
effective sizes in `(0, min_chunk_size]` and class `k ≥ 1` exactly to
sizes in `(min·2^(k-1), min·2^k]`; (ii) a successful allocation for `reqs`
returns a chunk of exactly `min_chunk_size * 2^k` bytes, `k` being the
class of `max(reqs.size, reqs.alignment)`; (iii) `free` recomputes exactly
`k` from `block.size()` and delegates freeing to node `k`. -/
theorem c5_size_class_selection :
    (∀ (c : ChunkedAllocator) (s k : Nat), 0 < c.minChunkSize → 0 < s → s ≤ 2 ^ 64 →
      (c.pickNode s = .ok k ↔
        (s ≤ c.minChunkSize * 2 ^ k ∧ (k = 0 ∨ c.minChunkSize * 2 ^ (k - 1) < s)))) ∧
    (∀ (c c' : ChunkedAllocator) (r r' : RootAllocator) (d d' : Device)
        (reqs : Requirements) (b : ChunkedBlock) (k : Nat),
      c.WF → c.maxChunkSize ≤ 2 ^ 63 → reqs.alignment ≤ 2 ^ 63 →
      c.alloc r d reqs = (.ok b, c', r', d') →
      c.pickNode (max reqs.size reqs.alignment) = .ok k →
      b.size = c.minChunkSize * 2 ^ k ∧
      c'.pickNode b.size = .ok k ∧
      ∀ (r₂ : RootAllocator) (d₂ : Device) (n n'' : ChunkedNode),
        c'.nodes[k]? = some n → n.freeBlock b = .ok n'' →
        c'.free r₂ d₂ b = (.ok (), { c' with nodes := c'.nodes.set k n'' }, r₂, d₂)) := by
  constructor
  · intro c s k hm hs hbound
    rw [pickNode_eq_ok]
    constructor
    · rintro ⟨-, -, rfl⟩
      refine ⟨(pickVal_le_iff hm hs hbound _).mp le_rfl, ?_⟩
      cases hk : 64 - leadingZeros64 ((s - 1) / c.minChunkSize) with
      | zero => exact Or.inl rfl
      | succ j =>
        refine Or.inr ?_
        have hj : ¬ (64 - leadingZeros64 ((s - 1) / c.minChunkSize) ≤ j) := by omega
        rw [pickVal_le_iff hm hs hbound j] at hj
        push_neg at hj
        simpa [hk] using hj
    · rintro ⟨hup, hlow⟩
      refine ⟨by omega, by omega, ?_⟩
      have h1 : 64 - leadingZeros64 ((s - 1) / c.minChunkSize) ≤ k :=
        (pickVal_le_iff hm hs hbound k).mpr hup
      rcases hlow with rfl | hlow
      · omega
      · have h2 : ¬ (64 - leadingZeros64 ((s - 1) / c.minChunkSize) ≤ k - 1) := by
          rw [pickVal_le_iff hm hs hbound (k - 1)]
          omega
        omega
  · intro c c' r r' d d' reqs b k hWF hmax halign h hpick
    obtain ⟨k₀, n', hpick₀, hk63, hcsU, hupper, hszmax, hgassert, hmask, halignok,
      ⟨ci, hstart⟩, hstop, hstopU, hid, hcpb, hmin, hmaxeq, hlen, hnk, hsetid, hncs,
      hnid, blk, hblocks, hmem⟩ := ChunkedAllocator.chunked_alloc_ok_spec hWF hmax halign h
    have hkk : k₀ = k := by
      rw [hpick₀] at hpick
      injection hpick
    subst hkk
    have hm0 : 0 < c.minChunkSize := hWF.1
    have hbsize : b.size = c.minChunkSize * 2 ^ k₀ := by
      simp only [ChunkedBlock.size, RawBlock.size]
      omega
    have hpickf : c'.pickNode b.size = .ok k₀ := by
      rw [hbsize, ← hmin]
      refine pickNode_chunkSize ?_ ?_
      · rw [hmin]; exact hm0
      · rw [hmin]; unfold U64 at hcsU; omega
    refine ⟨hbsize, hpickf, ?_⟩
    intro r₂ d₂ n n'' hn hnf
    simp only [ChunkedAllocator.free, hpickf, hn, hnf]

/-- Witness for C5: class 0 serves a 40-byte request when
`min_chunk_size = 64`, and the concrete allocation of C9's witness indeed
returns a 64-byte chunk. -/
theorem c5_size_class_selection_witness :
    (ChunkedAllocator.new 1 64 4096 0).pickNode 40 = .ok 0 ∧
    (⟨⟨0, ⟨0, 64⟩⟩, 0⟩ : ChunkedBlock).size =
      (ChunkedAllocator.new 1 64 4096 0).minChunkSize * 2 ^ 0 := by
  constructor
  · exact (c5_size_class_selection.1 (ChunkedAllocator.new 1 64 4096 0) 40 0
      (by norm_num [ChunkedAllocator.new]) (by norm_num) (by norm_num)).mpr
      (by norm_num [ChunkedAllocator.new])
  · exact (c5_size_class_selection.2 (ChunkedAllocator.new 1 64 4096 0)
      ⟨0, 1, 64, 4096, [⟨0, 1, 64, [], [⟨0, ⟨0, 64⟩⟩]⟩, ⟨0, 1, 128, [], []⟩]⟩
      (RootAllocator.new 0) ⟨0, 1⟩ devOK ⟨fun _ => none, 1⟩ ⟨40, 8, 1⟩
      ⟨⟨0, ⟨0, 64⟩⟩, 0⟩ 0
      ⟨by norm_num [ChunkedAllocator.new], by norm_num [ChunkedAllocator.new, U64],
        fun i hlt => absurd hlt (by simp [ChunkedAllocator.new])⟩
      (by norm_num [ChunkedAllocator.new]) (by norm_num) rfl (by decide)).1

/-- C10: whenever `SmartAllocator::alloc` returns an error — whether
`NoCompatibleMemoryType`, `OutOfMemory` from the feasibility filter, or a
failure propagated from the chosen `CombinedAllocator` — every heap's
`used` counter is exactly as before the call: the heap is charged only
after the underlying allocation succeeds. -/
theorem c10_error_leaves_heaps_unchanged
    {s s' : SmartAllocator} {d d' : Device} {ty : AllocType} {prop : Nat}
    {reqs : Requirements} {e : MemoryError}
    (h : s.alloc d ty prop reqs = (.err e, s', d')) :
    s'.heaps = s.heaps := by
  unfold SmartAllocator.alloc at h
  cases hpick : smartPickGo s.heaps prop reqs s.allocators 0 0 with
  | err e₂ =>
    simp only [hpick] at h
    obtain ⟨-, hs, -⟩ := by simpa [Prod.ext_iff] using h
    rw [← hs]
  | fatal => simp [hpick] at h
  | ok i =>
    simp only [hpick] at h
    cases hga : s.allocators[i]? with
    | none => simp [hga] at h
    | some p =>
      obtain ⟨mt, al⟩ := p
      simp only [hga] at h
      cases hca : al.alloc d ty reqs with
      | mk res rest =>
        obtain ⟨al', d₂⟩ := rest
        simp only [hca] at h
        cases res with
        | ok b =>
          cases hhp : s.heaps[mt.heapIndex]? with
          | none => simp [hhp] at h
          | some hp => simp [hhp] at h
        | err e₂ =>
          obtain ⟨-, hs, -⟩ := by simpa [Prod.ext_iff] using h
          rw [← hs]
        | fatal => simp at h

/-- Witness for C10: with no memory types at all, `alloc` fails with
`NoCompatibleMemoryType` and the single heap is untouched. -/
theorem c10_error_leaves_heaps_unchanged_witness :
    (⟨[], [⟨100, 0⟩]⟩ : SmartAllocator).heaps = (⟨[], [⟨100, 0⟩]⟩ : SmartAllocator).heaps :=
  @c10_error_leaves_heaps_unchanged ⟨[], [⟨100, 0⟩]⟩ ⟨[], [⟨100, 0⟩]⟩ devOK devOK
    .general 0 ⟨8, 1, 1⟩ .NoCompatibleMemoryType rfl

theorem DeviceError.toMemoryError_ne_NCMT (de : DeviceError) :
    de.toMemoryError ≠ .NoCompatibleMemoryType := by
  cases de <;> simp [DeviceError.toMemoryError]

theorem RootAllocator.root_alloc_ne_NCMT {r r' : RootAllocator} {d d' : Device}
    {reqs : Requirements} {res : RRes RawBlock}
    (h : r.alloc d reqs = (res, r', d')) : res ≠ .err .NoCompatibleMemoryType := by
  cases hp : d.plan d.next with
  | none =>
    simp only [RootAllocator.alloc, Device.allocateMemory, hp] at h
    obtain ⟨hres, -⟩ := by simpa [Prod.ext_iff] using h
    rw [← hres]
    simp
  | some de =>
    simp only [RootAllocator.alloc, Device.allocateMemory, hp] at h
    obtain ⟨hres, -⟩ := by simpa [Prod.ext_iff] using h
    rw [← hres]
    simp only [ne_eq, RRes.err.injEq]
    exact DeviceError.toMemoryError_ne_NCMT de

theorem ArenaAllocator.allocFresh_ne_NCMT {ar ar' : ArenaAllocator}
    {r r' : RootAllocator} {d d' : Device} {reqs : Requirements} {res : RRes ArenaBlock}
    (h : ar.allocFresh r d reqs = (res, ar', r', d')) :
    res ≠ .err .NoCompatibleMemoryType := by
  unfold ArenaAllocator.allocFresh at h
  cases hra : r.alloc d ⟨ar.arenaSize, max 1 reqs.alignment, 2 ^ ar.id⟩ with
  | mk res₀ rest =>
    obtain ⟨r₁, d₁⟩ := rest
    simp only [hra] at h
    cases res₀ with
    | ok blk =>
      obtain ⟨hres, -⟩ := by simpa [Prod.ext_iff] using h
      rw [← hres]
      split <;> simp
    | err e =>
      obtain ⟨hres, -⟩ := by simpa [Prod.ext_iff] using h
      rw [← hres]
      simpa using (RootAllocator.root_alloc_ne_NCMT hra)
    | fatal =>
      obtain ⟨hres, -⟩ := by simpa [Prod.ext_iff] using h
      rw [← hres]
      simp

theorem ArenaAllocator.arena_alloc_ne_NCMT {ar ar' : ArenaAllocator}
    {r r' : RootAllocator} {d d' : Device} {reqs : Requirements} {res : RRes ArenaBlock}
    (hmask : (2 ^ ar.id &&& reqs.typeMask == 0) = false)
    (h : ar.alloc r d reqs = (res, ar', r', d')) :
    res ≠ .err .NoCompatibleMemoryType := by
  unfold ArenaAllocator.alloc at h
  rw [hmask] at h
  simp only [Bool.false_eq_true, if_false] at h
  split at h
  · simp only [Prod.ext_iff] at h
    rw [← h.1]
    simp
  · cases hl : ar.arenas.getLast? with
    | none =>
      simp only [hl] at h
      exact ArenaAllocator.allocFresh_ne_NCMT h
    | some a =>
      simp only [hl] at h
      obtain ⟨hres, -⟩ := by simpa [Prod.ext_iff] using h
      rw [← hres]
      split
      · simp
      · cases hf : ar.allocFresh r d reqs with
        | mk fres frest =>
          obtain ⟨ar₁, r₁, d₁⟩ := frest
          simpa using ArenaAllocator.allocFresh_ne_NCMT hf

theorem ChunkedNode.node_alloc_ne_NCMT {n n' : ChunkedNode} {r r' : RootAllocator}
    {d d' : Device} {reqs : Requirements} {res : RRes ChunkedBlock}
    (hmask : (2 ^ n.id &&& reqs.typeMask == 0) = false)
    (h : n.alloc r d reqs = (res, n', r', d')) :
    res ≠ .err .NoCompatibleMemoryType := by
  unfold ChunkedNode.alloc at h
  rw [hmask] at h
  simp only [Bool.false_eq_true, if_false] at h
  split at h
  case h_1 blk n₁ heq =>
    split at h
    · obtain ⟨hres, -⟩ := by simpa [Prod.ext_iff] using h
      rw [← hres]; simp
    split at h
    · obtain ⟨hres, -⟩ := by simpa [Prod.ext_iff] using h
      rw [← hres]; simp
    · obtain ⟨hres, -⟩ := by simpa [Prod.ext_iff] using h
      rw [← hres]; simp
  case h_2 heq =>
    cases hg : n.grow r d with
    | mk gres grest =>
      obtain ⟨n₁, r₁, d₁⟩ := grest
      rw [hg] at h
      cases gres with
      | ok u =>
        simp only at h
        split at h <;>
          · obtain ⟨hres, -⟩ := by simpa [Prod.ext_iff] using h
            rw [← hres]; simp
      | err e =>
        simp only at h
        obtain ⟨hres, -⟩ := by simpa [Prod.ext_iff] using h
        rw [← hres]
        -- the error is propagated from the root allocator, hence the device
        unfold ChunkedNode.grow at hg
        cases hp : d.plan d.next with
        | none =>
          simp only [RootAllocator.alloc, Device.allocateMemory, hp] at hg
          split_ifs at hg <;> simp_all
        | some de =>
          simp only [RootAllocator.alloc, Device.allocateMemory, hp] at hg
          obtain ⟨he, -⟩ := by simpa [Prod.ext_iff] using hg
          rw [← he]
          simp only [ne_eq, RRes.err.injEq]
          exact DeviceError.toMemoryError_ne_NCMT de
      | fatal =>
        simp only at h
        obtain ⟨hres, -⟩ := by simpa [Prod.ext_iff] using h
        rw [← hres]; simp
  case h_3 e heq =>
    obtain ⟨hres, -⟩ := by simpa [Prod.ext_iff] using h
    rw [← hres]; simp
  case h_4 heq =>
    obtain ⟨hres, -⟩ := by simpa [Prod.ext_iff] using h
    rw [← hres]; simp

theorem ChunkedAllocator.chunked_alloc_ne_NCMT {c c' : ChunkedAllocator} {r r' : RootAllocator}
    {d d' : Device} {reqs : Requirements} {res : RRes ChunkedBlock}
    (hmask : (2 ^ c.id &&& reqs.typeMask == 0) = false)
    (hnodes : ∀ n ∈ c.nodes, n.id = c.id)
    (h : c.alloc r d reqs = (res, c', r', d')) :
    res ≠ .err .NoCompatibleMemoryType := by
  unfold ChunkedAllocator.alloc at h
  split at h
  · obtain ⟨hres, -⟩ := by simpa [Prod.ext_iff] using h
    rw [← hres]; simp
  case isFalse hguard =>
  cases hpick : c.pickNode (max reqs.size reqs.alignment) with
  | err e =>
    rw [hpick] at h
    obtain ⟨hres, -⟩ := by simpa [Prod.ext_iff] using h
    rw [← hres]; simp
  | fatal =>
    rw [hpick] at h
    obtain ⟨hres, -⟩ := by simpa [Prod.ext_iff] using h
    rw [← hres]; simp
  | ok k =>
    simp only [hpick] at h
    cases hg : c.grow (k + 1) with
    | err e =>
      simp only [hg] at h
      obtain ⟨hres, -⟩ := by simpa [Prod.ext_iff] using h
      rw [← hres]; simp
    | fatal =>
      simp only [hg] at h
      obtain ⟨hres, -⟩ := by simpa [Prod.ext_iff] using h
      rw [← hres]; simp
    | ok c₁ =>
      simp only [hg] at h
      cases hnk : c₁.nodes[k]? with
      | none =>
        simp only [hnk] at h
        obtain ⟨hres, -⟩ := by simpa [Prod.ext_iff] using h
        rw [← hres]; simp
      | some nk =>
        simp only [hnk] at h
        have hnkid : nk.id = c.id := by
          unfold ChunkedAllocator.grow at hg
          split at hg
          · simp at hg
          · have hc₁ : c₁ = { c with
                nodes := c.nodes ++ (List.range' c.nodes.length
                  (k + 1 + 1 - c.nodes.length)).map
                    (fun i => ChunkedNode.new (chunkSizeAt c.minChunkSize i)
                      c.chunksPerBlock c.id) } := by
              injection hg with hg
              exact hg.symm
            have hmem : nk ∈ c₁.nodes := by
              have := List.getElem?_mem hnk
              exact this
            rw [hc₁] at hmem
            simp only [List.mem_append, List.mem_map] at hmem
            rcases hmem with hmem | ⟨i, -, hmem⟩
            · exact hnodes nk hmem
            · rw [← hmem]
              rfl
        cases hna : nk.alloc r d reqs with
        | mk nres nrest =>
          obtain ⟨n₁, r₁, d₁⟩ := nrest
          simp only [hna] at h
          obtain ⟨hres, -⟩ := by simpa [Prod.ext_iff] using h
          rw [← hres]
          exact ChunkedNode.node_alloc_ne_NCMT (by rw [hnkid]; exact hmask) hna

theorem CombinedAllocator.combined_alloc_ne_NCMT {id : Nat} {c c' : CombinedAllocator}
    {d d' : Device} {ty : AllocType} {reqs : Requirements} {res : RRes CombinedBlock}
    (hWF : CombinedAllocator.WFIds id c)
    (hmask : (2 ^ id &&& reqs.typeMask == 0) = false)
    (h : c.alloc d ty reqs = (res, c', d')) :
    res ≠ .err .NoCompatibleMemoryType := by
  obtain ⟨hroot, harena, hchunk, hnodes⟩ := hWF
  cases ty with
  | shortLived =>
    cases ha : c.arenas.alloc c.root d reqs with
    | mk ares arest =>
      obtain ⟨ar', r', d₁⟩ := arest
      have hne := ArenaAllocator.arena_alloc_ne_NCMT (by rw [harena]; exact hmask) ha
      cases ares with
      | ok b =>
        obtain ⟨h1, -⟩ := by simpa [CombinedAllocator.alloc, ha] using h
        subst h1
        simp
      | err e =>
        obtain ⟨h1, -⟩ := by simpa [CombinedAllocator.alloc, ha] using h
        subst h1
        simpa using hne
      | fatal =>
        obtain ⟨h1, -⟩ := by simpa [CombinedAllocator.alloc, ha] using h
        subst h1
        simp
  | general =>
    by_cases hguard : c.chunks.maxChunkSize < reqs.size
    · cases hra : c.root.alloc d reqs with
      | mk rres rrest =>
        obtain ⟨r', d₁⟩ := rrest
        have hne := RootAllocator.root_alloc_ne_NCMT hra
        cases rres with
        | ok b =>
        obtain ⟨h1, -⟩ := by simpa [CombinedAllocator.alloc, hguard, hra] using h
        subst h1
        simp
        | err e =>
        obtain ⟨h1, -⟩ := by simpa [CombinedAllocator.alloc, hguard, hra] using h
        subst h1
        simpa using hne
        | fatal =>
        obtain ⟨h1, -⟩ := by simpa [CombinedAllocator.alloc, hguard, hra] using h
        subst h1
        simp
    · cases hca : c.chunks.alloc c.root d reqs with
      | mk cres crest =>
        obtain ⟨ch', r', d₁⟩ := crest
        have hne := ChunkedAllocator.chunked_alloc_ne_NCMT (by rw [hchunk]; exact hmask)
          (by rw [hchunk]; exact hnodes) hca
        cases cres with
        | ok b =>
        obtain ⟨h1, -⟩ := by simpa [CombinedAllocator.alloc, hguard, hca] using h
        subst h1
        simp
        | err e =>
        obtain ⟨h1, -⟩ := by simpa [CombinedAllocator.alloc, hguard, hca] using h
        subst h1
        simpa using hne
        | fatal =>
        obtain ⟨h1, -⟩ := by simpa [CombinedAllocator.alloc, hguard, hca] using h
        subst h1
        simp

/-- The selection loop returns `NoCompatibleMemoryType` exactly when no
compatible type was seen, neither before (`cnt = 0`) nor in the rest of
the list. -/
theorem smartPickGo_err_NCMT {heaps : List Heap} {prop : Nat} {reqs : Requirements} :
    ∀ (l : List (MemoryType × CombinedAllocator)) (i cnt : Nat),
      (smartPickGo heaps prop reqs l i cnt = .err .NoCompatibleMemoryType ↔
        (cnt = 0 ∧ ∀ j (h : j < l.length), compatibleType (i + j) l[j].1 prop reqs = false))
  | [], i, cnt => by
    by_cases hc : cnt = 0 <;> simp [smartPickGo, hc]
  | (mt, al) :: rest, i, cnt => by
    by_cases hcomp : compatibleType i mt prop reqs
    · cases hhp : heaps[mt.heapIndex]? with
      | none =>
        simp only [smartPickGo, hcomp, if_true, hhp]
        constructor
        · intro h; exact absurd h (by simp)
        · rintro ⟨-, hall⟩
          have h0 := hall 0 (by simp)
          simp [hcomp] at h0
      | some hp =>
        by_cases hfit : (reqs.size + reqs.alignment) % U64 ≤ hp.available
        · simp only [smartPickGo, hcomp, if_true, hhp, hfit]
          constructor
          · intro h; exact absurd h (by simp)
          · rintro ⟨-, hall⟩
            have h0 := hall 0 (by simp)
            simp [hcomp] at h0
        · simp only [smartPickGo, hcomp, if_true, hhp, hfit, if_false]
          rw [smartPickGo_err_NCMT rest (i + 1) (cnt + 1)]
          constructor
          · rintro ⟨h0, -⟩; exact absurd h0 (by omega)
          · rintro ⟨-, hall⟩
            have h0 := hall 0 (by simp)
            simp [hcomp] at h0
    · simp only [smartPickGo, hcomp, Bool.false_eq_true, if_false]
      rw [smartPickGo_err_NCMT rest (i + 1) cnt]
      constructor
      · rintro ⟨h0, hall⟩
        refine ⟨h0, ?_⟩
        intro j hj
        cases j with
        | zero =>
          simpa using eq_false_of_ne_true (by simpa using hcomp)
        | succ j =>
          have hidx : i + (j + 1) = i + 1 + j := by omega
          have := hall j (by simpa using Nat.lt_of_succ_lt_succ hj)
          simpa [hidx] using this
      · rintro ⟨h0, hall⟩
        refine ⟨h0, ?_⟩
        intro j hj
        have hidx : i + 1 + j = i + (j + 1) := by omega
        have := hall (j + 1) (by simpa using Nat.succ_lt_succ hj)
        simpa [hidx] using this

/-- The selection loop returns `OutOfMemory` when some compatible type was
seen but every compatible type fails the feasibility check. -/
theorem smartPickGo_err_OOM {heaps : List Heap} {prop : Nat} {reqs : Requirements} :
    ∀ (l : List (MemoryType × CombinedAllocator)) (i cnt : Nat),
      (∀ j (h : j < l.length), compatibleType (i + j) l[j].1 prop reqs = true →
        ∃ hp, heaps[l[j].1.heapIndex]? = some hp ∧
          ¬ (reqs.size + reqs.alignment) % U64 ≤ hp.available) →
      (0 < cnt ∨ ∃ j, ∃ h : j < l.length, compatibleType (i + j) l[j].1 prop reqs = true) →
      smartPickGo heaps prop reqs l i cnt = .err .OutOfMemory
  | [], i, cnt => by
    rintro - (hc | ⟨j, hj, -⟩)
    · simp only [smartPickGo]
      rw [if_neg (by omega)]
    · exact absurd hj (by simp)
  | (mt, al) :: rest, i, cnt => by
    rintro hall hex
    by_cases hcomp : compatibleType i mt prop reqs
    · obtain ⟨hp, hhp, hfit⟩ := by simpa [hcomp] using hall 0 (by simp)
      simp only [smartPickGo, hcomp, if_true, hhp]
      rw [if_neg (by omega)]
      refine smartPickGo_err_OOM rest (i + 1) (cnt + 1) ?_ (Or.inl (by omega))
      intro j hj hcj
      have hidx : i + 1 + j = i + (j + 1) := by omega
      exact hall (j + 1) (by simpa using Nat.succ_lt_succ hj) (by simpa [hidx] using hcj)
    · simp only [smartPickGo, hcomp, Bool.false_eq_true, if_false]
      refine smartPickGo_err_OOM rest (i + 1) cnt ?_ ?_
      · intro j hj hcj
        have hidx : i + 1 + j = i + (j + 1) := by omega
        exact hall (j + 1) (by simpa using Nat.succ_lt_succ hj) (by simpa [hidx] using hcj)
      · rcases hex with hc | ⟨j, hj, hcj⟩
        · exact Or.inl hc
        · cases j with
          | zero => exact absurd (by simpa using hcj) (by simpa using hcomp)
          | succ j =>
            refine Or.inr ⟨j, by simpa using Nat.lt_of_succ_lt_succ hj, ?_⟩
            have hidx : i + 1 + j = i + (j + 1) := by omega
            simpa [hidx] using hcj

/-- The selection loop picks the first compatible and feasible index. -/
theorem smartPickGo_ok_least {heaps : List Heap} {prop : Nat} {reqs : Requirements} :
    ∀ (l : List (MemoryType × CombinedAllocator)) (i cnt j : Nat) (hj : j < l.length),
      (∀ j' (h' : j' < j) (hl : j' < l.length),
        compatibleType (i + j') l[j'].1 prop reqs = false ∨
        ∃ hp, heaps[l[j'].1.heapIndex]? = some hp ∧
          ¬ (reqs.size + reqs.alignment) % U64 ≤ hp.available) →
      compatibleType (i + j) l[j].1 prop reqs = true →
      (∃ hp, heaps[l[j].1.heapIndex]? = some hp ∧
        (reqs.size + reqs.alignment) % U64 ≤ hp.available) →
      smartPickGo heaps prop reqs l i cnt = .ok (i + j)
  | [], i, cnt, j, hj => by simp at hj
  | (mt, al) :: rest, i, cnt, 0, hj => by
    rintro - hcomp ⟨hp, hhp, hfit⟩
    simp only [List.getElem_cons_zero, Nat.add_zero] at hcomp hhp hfit ⊢
    simp only [smartPickGo, hcomp, if_true, hhp, hfit, if_true]
  | (mt, al) :: rest, i, cnt, j + 1, hj => by
    rintro hall hcomp hfea
    have hidx : i + (j + 1) = i + 1 + j := by omega
    have h0 := hall 0 (by omega) (by simp)
    simp only [List.getElem_cons_zero, Nat.add_zero] at h0
    have htail : ∀ j' (h' : j' < j) (hl : j' < rest.length),
        compatibleType (i + 1 + j') rest[j'].1 prop reqs = false ∨
        ∃ hp, heaps[rest[j'].1.heapIndex]? = some hp ∧
          ¬ (reqs.size + reqs.alignment) % U64 ≤ hp.available := by
      intro j' h' hl
      have hidx' : i + 1 + j' = i + (j' + 1) := by omega
      have := hall (j' + 1) (by omega) (by simpa using Nat.succ_lt_succ hl)
      simpa [hidx'] using this
    have hj' : j < rest.length := by simpa using Nat.lt_of_succ_lt_succ hj
    have hcomp' : compatibleType (i + 1 + j) rest[j].1 prop reqs = true := by
      rw [← hidx]
      simpa using hcomp
    have hfea' : ∃ hp, heaps[rest[j].1.heapIndex]? = some hp ∧
        (reqs.size + reqs.alignment) % U64 ≤ hp.available := by
      simpa using hfea
    rcases h0 with h0 | ⟨hp, hhp, hfit⟩
    · simp only [smartPickGo, h0, Bool.false_eq_true, if_false]
      rw [hidx]
      exact smartPickGo_ok_least rest (i + 1) cnt j hj' htail hcomp' hfea'
    · cases hc0 : compatibleType i mt prop reqs with
      | false =>
        simp only [smartPickGo, hc0, Bool.false_eq_true, if_false]
        rw [hidx]
        exact smartPickGo_ok_least rest (i + 1) cnt j hj' htail hcomp' hfea'
      | true =>
        simp only [smartPickGo, hc0, if_true, hhp]
        rw [if_neg (by omega)]
        rw [hidx]
        exact smartPickGo_ok_least rest (i + 1) (cnt + 1) j hj' htail hcomp' hfea'

/-- Inversion: a successful pick names a compatible and feasible index. -/
theorem smartPickGo_ok_inv {heaps : List Heap} {prop : Nat} {reqs : Requirements} :
    ∀ (l : List (MemoryType × CombinedAllocator)) (i cnt idx : Nat),
      smartPickGo heaps prop reqs l i cnt = .ok idx →
      ∃ j, ∃ h : j < l.length, idx = i + j ∧
        compatibleType idx l[j].1 prop reqs = true ∧
        ∃ hp, heaps[l[j].1.heapIndex]? = some hp ∧
          (reqs.size + reqs.alignment) % U64 ≤ hp.available
  | [], i, cnt, idx => by
    intro h
    simp [smartPickGo] at h
  | (mt, al) :: rest, i, cnt, idx => by
    intro h
    by_cases hcomp : compatibleType i mt prop reqs
    · cases hhp : heaps[mt.heapIndex]? with
      | none => simp [smartPickGo, hcomp, hhp] at h
      | some hp =>
        by_cases hfit : (reqs.size + reqs.alignment) % U64 ≤ hp.available
        · simp only [smartPickGo, hcomp, if_true, hhp, hfit, if_true] at h
          injection h with h
          exact ⟨0, by simp, by omega, by simpa [← h] using hcomp,
            hp, by simpa [← h] using hhp, hfit⟩
        · simp only [smartPickGo, hcomp, if_true, hhp, hfit, if_false] at h
          obtain ⟨j, hj, hidx, hcj, hfj⟩ := smartPickGo_ok_inv rest (i + 1) (cnt + 1) idx h
          refine ⟨j + 1, by simpa using Nat.succ_lt_succ hj, by omega, by simpa using hcj,
            by simpa using hfj⟩
    · simp only [smartPickGo, hcomp, Bool.false_eq_true, if_false] at h
      obtain ⟨j, hj, hidx, hcj, hfj⟩ := smartPickGo_ok_inv rest (i + 1) cnt idx h
      refine ⟨j + 1, by simpa using Nat.succ_lt_succ hj, by omega, by simpa using hcj,
        by simpa using hfj⟩

/-- A compatible type has its bit set in `reqs.type_mask`, so the mask test
inside `CombinedAllocator::alloc` (chunked path) cannot fail for it. -/
theorem compatibleType_mask_ne_zero {i : Nat} {mt : MemoryType} {prop : Nat}
    {reqs : Requirements} (h : compatibleType i mt prop reqs = true) :
    (2 ^ i &&& reqs.typeMask == 0) = false := by
  simp only [compatibleType, Bool.and_eq_true, beq_iff_eq] at h
  obtain ⟨h1, -⟩ := h
  simp only [beq_eq_false_iff_ne, ne_eq, h1]
  exact Nat.pos_iff_ne_zero.mp (Nat.pos_pow_of_pos i (by norm_num))

/-- The selection loop of `SmartAllocator::alloc` reports
`NoCompatibleMemoryType` exactly when no index is compatible. -/
theorem SmartAllocator.pick_err_NCMT_iff (s : SmartAllocator) (prop : Nat)
    (reqs : Requirements) :
    smartPickGo s.heaps prop reqs s.allocators 0 0 = .err .NoCompatibleMemoryType ↔
      ∀ i, ¬ s.compatibleAt prop reqs i := by
  rw [smartPickGo_err_NCMT]
  constructor
  · rintro ⟨-, hall⟩ i ⟨p, hp, hc⟩
    rcases Nat.lt_or_ge i s.allocators.length with hlt | hge
    · have hz := hall i hlt
      rw [List.getElem?_eq_getElem hlt] at hp
      injection hp with hp
      simp only [Nat.zero_add] at hz
      rw [hp] at hz
      rw [hz] at hc
      cases hc
    · rw [List.getElem?_eq_none hge] at hp
      cases hp
  · intro hnone
    refine ⟨rfl, ?_⟩
    intro j hj
    by_contra hne
    exact hnone j ⟨s.allocators[j], List.getElem?_eq_getElem hj, by simpa using hne⟩

/-- C4: `SmartAllocator::alloc` returns `NoCompatibleMemoryType` exactly when
no memory type is compatible with the request; it returns `OutOfMemory` when
some type is compatible but every compatible type fails the feasibility
check; and when `i` is the first index that is both compatible and feasible
it forwards the request to that index's `CombinedAllocator`, returning its
block tagged `i` (charging the type's heap) on success and propagating its
error without touching any heap otherwise. -/
theorem c4_type_selection (s : SmartAllocator) (d : Device) (ty : AllocType)
    (prop : Nat) (reqs : Requirements) (hWF : s.WF) :
    ((s.alloc d ty prop reqs).1 = .err .NoCompatibleMemoryType ↔
      ∀ i, ¬ s.compatibleAt prop reqs i) ∧
    ((∃ i, s.compatibleAt prop reqs i) →
      (∀ i, s.compatibleAt prop reqs i → ¬ s.feasibleAt reqs i) →
      (s.alloc d ty prop reqs).1 = .err .OutOfMemory) ∧
    (∀ i mt al, s.allocators[i]? = some (mt, al) →
      s.compatibleAt prop reqs i → s.feasibleAt reqs i →
      (∀ j, j < i → s.compatibleAt prop reqs j → ¬ s.feasibleAt reqs j) →
      ∀ res al' d', al.alloc d ty reqs = (res, al', d') →
        ((∀ b, res = .ok b → ∃ hp, s.heaps[mt.heapIndex]? = some hp ∧
            s.alloc d ty prop reqs =
              (.ok ⟨b, i⟩,
                ⟨s.allocators.set i (mt, al'),
                 s.heaps.set mt.heapIndex (hp.alloc b.size)⟩, d')) ∧
          (∀ e, res = .err e →
            s.alloc d ty prop reqs =
              (.err e, ⟨s.allocators.set i (mt, al'), s.heaps⟩, d')))) := by
  refine ⟨⟨?_, ?_⟩, ?_, ?_⟩
  · intro h
    cases hpick : smartPickGo s.heaps prop reqs s.allocators 0 0 with
    | err e =>
      simp only [SmartAllocator.alloc, hpick] at h
      injection h with h
      subst h
      exact (SmartAllocator.pick_err_NCMT_iff s prop reqs).mp hpick
    | fatal => simp [SmartAllocator.alloc, hpick] at h
    | ok idx =>
      obtain ⟨j, hj, hidx, hcj, -⟩ := smartPickGo_ok_inv s.allocators 0 0 idx hpick
      have hidx' : idx = j := by omega
      subst hidx'
      cases hpj : s.allocators[idx] with
      | mk mt al =>
        have hsome : s.allocators[idx]? = some (mt, al) := by
          rw [List.getElem?_eq_getElem hj, hpj]
        cases hca : al.alloc d ty reqs with
        | mk res rest =>
          obtain ⟨al', d'⟩ := rest
          cases res with
          | ok b =>
            cases hhp : s.heaps[mt.heapIndex]? <;>
              simp [SmartAllocator.alloc, hpick, hsome, hca, hhp] at h
          | fatal => simp [SmartAllocator.alloc, hpick, hsome, hca] at h
          | err e =>
            simp only [SmartAllocator.alloc, hpick, hsome, hca] at h
            injection h with h
            subst h
            have hW : CombinedAllocator.WFIds idx al := by
              have h2 := (hWF idx hj).2
              rwa [hpj] at h2
            exact absurd rfl (CombinedAllocator.combined_alloc_ne_NCMT hW
              (compatibleType_mask_ne_zero hcj) hca)
  · intro hnone
    have hpick := (SmartAllocator.pick_err_NCMT_iff s prop reqs).mpr hnone
    simp [SmartAllocator.alloc, hpick]
  · rintro ⟨i0, hc0⟩ hinfeas
    have hpick : smartPickGo s.heaps prop reqs s.allocators 0 0 = .err .OutOfMemory := by
      apply smartPickGo_err_OOM s.allocators 0 0
      · intro j hj hcj
        have hcA : s.compatibleAt prop reqs j :=
          ⟨s.allocators[j], List.getElem?_eq_getElem hj, by simpa using hcj⟩
        have hnf := hinfeas j hcA
        have hheap := (hWF j hj).1
        refine ⟨s.heaps[s.allocators[j].1.heapIndex], List.getElem?_eq_getElem hheap, ?_⟩
        intro hfit
        exact hnf ⟨s.allocators[j], s.heaps[s.allocators[j].1.heapIndex],
          List.getElem?_eq_getElem hj, List.getElem?_eq_getElem hheap, hfit⟩
      · right
        obtain ⟨p, hp, hc⟩ := hc0
        rcases Nat.lt_or_ge i0 s.allocators.length with hlt | hge
        · refine ⟨i0, hlt, ?_⟩
          rw [List.getElem?_eq_getElem hlt] at hp
          injection hp with hp
          rw [hp]
          simpa using hc
        · rw [List.getElem?_eq_none hge] at hp
          cases hp
    simp [SmartAllocator.alloc, hpick]
  · intro i mt al hi hcomp hfea hleast res al' d' hca
    have hj : i < s.allocators.length := by
      by_contra hge
      rw [List.getElem?_eq_none (by omega)] at hi
      cases hi
    have hval : s.allocators[i] = (mt, al) :=
      Option.some.inj ((List.getElem?_eq_getElem hj).symm.trans hi)
    have hpick : smartPickGo s.heaps prop reqs s.allocators 0 0 = .ok i := by
      have hres : smartPickGo s.heaps prop reqs s.allocators 0 0 = RRes.ok (0 + i) :=
        smartPickGo_ok_least s.allocators 0 0 i hj ?htail ?hc ?hf
      · simpa using hres
      case htail =>
        intro j' h' hl
        cases hc' : compatibleType (0 + j') s.allocators[j'].1 prop reqs with
        | false => exact Or.inl rfl
        | true =>
          right
          have hcA : s.compatibleAt prop reqs j' :=
            ⟨s.allocators[j'], List.getElem?_eq_getElem hl, by simpa using hc'⟩
          have hnf := hleast j' h' hcA
          have hheap := (hWF j' hl).1
          refine ⟨s.heaps[s.allocators[j'].1.heapIndex],
            List.getElem?_eq_getElem hheap, ?_⟩
          intro hfit
          exact hnf ⟨s.allocators[j'], s.heaps[s.allocators[j'].1.heapIndex],
            List.getElem?_eq_getElem hl, List.getElem?_eq_getElem hheap, hfit⟩
      case hc =>
        obtain ⟨p, hp, hc⟩ := hcomp
        rw [hi] at hp
        injection hp with hp
        subst hp
        simpa [hval] using hc
      case hf =>
        obtain ⟨p, hp, hpe, hhe, hfit⟩ := hfea
        rw [hi] at hpe
        injection hpe with hpe
        subst hpe
        refine ⟨hp, ?_, hfit⟩
        rw [hval]
        exact hhe
    refine ⟨?_, ?_⟩
    · rintro b rfl
      have hheap := (hWF i hj).1
      rw [hval] at hheap
      refine ⟨s.heaps[mt.heapIndex], List.getElem?_eq_getElem hheap, ?_⟩
      simp [SmartAllocator.alloc, hpick, hi, hca, List.getElem?_eq_getElem hheap]
    · rintro e rfl
      simp [SmartAllocator.alloc, hpick, hi, hca]

/-- C4 witness: the no-compatible-type equivalence at a concrete allocator
and request whose `type_mask` is zero. -/
theorem c4_type_selection_witness :
    (SmartAllocator.new [⟨7, 0⟩] [4096] 1024 4 64 4096).WF ∧
    (((SmartAllocator.new [⟨7, 0⟩] [4096] 1024 4 64 4096).alloc devOK .general 0
        ⟨100, 4, 0⟩).1 = .err .NoCompatibleMemoryType ↔
      ∀ i, ¬ (SmartAllocator.new [⟨7, 0⟩] [4096] 1024 4 64 4096).compatibleAt 0
        ⟨100, 4, 0⟩ i) :=
  ⟨by decide, (c4_type_selection _ devOK .general 0 ⟨100, 4, 0⟩ (by decide)).1⟩

/-- Replacing the combined allocator at an index (keeping its memory type)
does not change which heap any block is charged to. -/
theorem chargedHeap_set {s : SmartAllocator} {t : Nat} {mt : MemoryType}
    {al al' : CombinedAllocator} (hs' : List Heap)
    (h : s.allocators[t]? = some (mt, al)) (bb : SmartBlock) :
    chargedHeap ⟨s.allocators.set t (mt, al'), hs'⟩ bb = chargedHeap s bb := by
  simp only [chargedHeap]
  by_cases hbt : t = bb.tag
  · have hlt : t < s.allocators.length := by
      by_contra hge
      rw [List.getElem?_eq_none (by omega)] at h
      cases h
    subst hbt
    rw [List.getElem?_set_self hlt, h]
    rfl
  · rw [List.getElem?_set_ne hbt]

/-- Two allocator states that charge every block to the same heap have the
same charged sums. -/
theorem chargedSum_congr (s s' : SmartAllocator) (l : List SmartBlock) (h : Nat)
    (hc : ∀ b, chargedHeap s' b = chargedHeap s b) :
    chargedSum s' l h = chargedSum s l h := by
  unfold chargedSum
  rw [List.filter_congr (fun b _ => by rw [hc b])]

theorem sizeFoldr_const : ∀ (l : List SmartBlock) (c : Nat),
    l.foldr (fun b acc => b.size + acc) c = l.foldr (fun b acc => b.size + acc) 0 + c
  | [], c => by simp
  | x :: xs, c => by
    simp only [List.foldr_cons]
    rw [sizeFoldr_const xs c]
    omega

/-- Appending one issued block adds its size to the sum of the heap it is
charged to and nothing to any other heap. -/
theorem chargedSum_append (s : SmartAllocator) (l : List SmartBlock) (b : SmartBlock)
    (h : Nat) :
    chargedSum s (l ++ [b]) h =
      chargedSum s l h + (if chargedHeap s b == some h then b.size else 0) := by
  unfold chargedSum
  rw [List.filter_append, List.foldr_append]
  cases hc : (chargedHeap s b == some h) with
  | false => simp [List.filter_cons, hc]
  | true =>
    simp only [List.filter_cons, hc, ite_true, List.filter_nil, List.foldr_cons,
      List.foldr_nil]
    rw [sizeFoldr_const]
    omega

/-- Removing one live block subtracts its size from the sum of the heap it
is charged to and nothing from any other heap. -/
theorem chargedSum_eraseIdx (s : SmartAllocator) (h : Nat) :
    ∀ (l : List SmartBlock) (i : Nat) (b : SmartBlock), l[i]? = some b →
      chargedSum s l h =
        chargedSum s (l.eraseIdx i) h +
          (if chargedHeap s b == some h then b.size else 0)
  | [], i, b => by simp
  | x :: xs, 0, b => by
    intro hx
    have hxb : x = b := by simpa using hx
    subst hxb
    unfold chargedSum
    rw [List.eraseIdx_cons_zero]
    cases hc : (chargedHeap s x == some h) with
    | false => simp [List.filter_cons, hc]
    | true =>
      simp only [List.filter_cons, hc, ite_true, List.foldr_cons]
      omega
  | x :: xs, i + 1, b => by
    intro hx
    have ih := chargedSum_eraseIdx s h xs i b (by simpa using hx)
    unfold chargedSum at ih ⊢
    rw [List.eraseIdx_cons_succ]
    cases hc : (chargedHeap s x == some h) with
    | false =>
      simp only [List.filter_cons, hc, Bool.false_eq_true, ite_false]
      exact ih
    | true =>
      simp only [List.filter_cons, hc, ite_true, List.foldr_cons]
      rw [ih]
      omega

/-- Anatomy of a successful `SmartAllocator::alloc`: the chosen index holds
a combined allocator that produced the block, and its heap — which exists —
is charged `block.size()`. -/
theorem SmartAllocator.alloc_ok_inv {s : SmartAllocator} {d : Device} {ty : AllocType}
    {prop : Nat} {reqs : Requirements} {b : SmartBlock} {s' : SmartAllocator}
    {d' : Device} (h : s.alloc d ty prop reqs = (.ok b, s', d')) :
    ∃ idx mt al al' hp0 cb,
      s.allocators[idx]? = some (mt, al) ∧
      al.alloc d ty reqs = (.ok cb, al', d') ∧
      s.heaps[mt.heapIndex]? = some hp0 ∧
      b = ⟨cb, idx⟩ ∧
      s' = ⟨s.allocators.set idx (mt, al'),
            s.heaps.set mt.heapIndex (hp0.alloc cb.size)⟩ := by
  unfold SmartAllocator.alloc at h
  cases hpick : smartPickGo s.heaps prop reqs s.allocators 0 0 with
  | err e => simp [hpick] at h
  | fatal => simp [hpick] at h
  | ok idx =>
    simp only [hpick] at h
    cases hsome : s.allocators[idx]? with
    | none => simp [hsome] at h
    | some p =>
      obtain ⟨mt, al⟩ := p
      simp only [hsome] at h
      cases hca : al.alloc d ty reqs with
      | mk r rest =>
        obtain ⟨al', d₂⟩ := rest
        simp only [hca] at h
        cases r with
        | ok cb =>
          cases hhp : s.heaps[mt.heapIndex]? with
          | none => simp [hhp] at h
          | some hp0 =>
            simp only [hhp] at h
            obtain ⟨h1, h2, h3⟩ := by simpa [Prod.ext_iff] using h
            exact ⟨idx, mt, al, al', hp0, cb, hsome, by rw [hca, h3], hhp,
              h1.symm, h2.symm⟩
        | err e => simp at h
        | fatal => simp at h

/-- A failing `SmartAllocator::alloc` leaves the heaps untouched and does
not change which heap any block is charged to. -/
theorem SmartAllocator.alloc_err_inv {s : SmartAllocator} {d : Device} {ty : AllocType}
    {prop : Nat} {reqs : Requirements} {e : MemoryError} {s' : SmartAllocator}
    {d' : Device} (h : s.alloc d ty prop reqs = (.err e, s', d')) :
    s'.heaps = s.heaps ∧ ∀ bb, chargedHeap s' bb = chargedHeap s bb := by
  unfold SmartAllocator.alloc at h
  cases hpick : smartPickGo s.heaps prop reqs s.allocators 0 0 with
  | err e₂ =>
    simp only [hpick] at h
    obtain ⟨-, h2, -⟩ := by simpa [Prod.ext_iff] using h
    rw [← h2]
    exact ⟨rfl, fun bb => rfl⟩
  | fatal => simp [hpick] at h
  | ok idx =>
    simp only [hpick] at h
    cases hsome : s.allocators[idx]? with
    | none => simp [hsome] at h
    | some p =>
      obtain ⟨mt, al⟩ := p
      simp only [hsome] at h
      cases hca : al.alloc d ty reqs with
      | mk r rest =>
        obtain ⟨al', d₂⟩ := rest
        simp only [hca] at h
        cases r with
        | ok cb =>
          cases hhp : s.heaps[mt.heapIndex]? with
          | none => simp [hhp] at h
          | some hp0 => simp [hhp] at h
        | fatal => simp at h
        | err e₂ =>
          obtain ⟨-, h2, -⟩ := by simpa [Prod.ext_iff] using h
          rw [← h2]
          exact ⟨rfl, fun bb => chargedHeap_set s.heaps hsome bb⟩

/-- Anatomy of a successful `SmartAllocator::free`: the block's tag names
its memory type, whose heap — which exists — is credited `block.size()`. -/
theorem SmartAllocator.free_ok_inv {s : SmartAllocator} {d : Device} {b : SmartBlock}
    {u : Unit} {s' : SmartAllocator} {d' : Device}
    (h : s.free d b = (.ok u, s', d')) :
    ∃ mt al al' hp0,
      s.allocators[b.tag]? = some (mt, al) ∧
      s.heaps[mt.heapIndex]? = some hp0 ∧
      s' = ⟨s.allocators.set b.tag (mt, al'),
            s.heaps.set mt.heapIndex (hp0.free b.size)⟩ := by
  unfold SmartAllocator.free at h
  cases hsome : s.allocators[b.tag]? with
  | none => simp [hsome] at h
  | some p =>
    obtain ⟨mt, al⟩ := p
    simp only [hsome] at h
    cases hhp : s.heaps[mt.heapIndex]? with
    | none => simp [hhp] at h
    | some hp0 =>
      simp only [hhp] at h
      cases hcf : al.free d b.cb with
      | mk r rest =>
        obtain ⟨al', d₂⟩ := rest
        simp only [hcf] at h
        cases r with
        | ok u₂ =>
          obtain ⟨h2, -⟩ := by simpa [Prod.ext_iff] using h
          exact ⟨mt, al, al', hp0, rfl, hhp, h2.symm⟩
        | err e => simp at h
        | fatal => simp at h

/-- One abort-free `SmartTrace` step preserves the heap-accounting
invariant. -/
theorem SmartTrace.step_heapInv (st st' : SmartTrace) (op : SmartOp)
    (hstep : st.step op = some st') (hinv : st.HeapInv) : st'.HeapInv := by
  cases op with
  | alloc ty prop reqs =>
    unfold SmartTrace.step at hstep
    cases ha : st.smart.alloc st.device ty prop reqs with
    | mk r rest =>
      obtain ⟨s', d'⟩ := rest
      simp only [ha] at hstep
      cases r with
      | fatal => simp at hstep
      | err e =>
        injection hstep with hstep
        subst hstep
        obtain ⟨hheaps, hch⟩ := SmartAllocator.alloc_err_inv ha
        unfold SmartTrace.HeapInv
        dsimp only
        intro hIdx hp hhp'
        rw [hheaps] at hhp'
        obtain ⟨h1, h2⟩ := hinv hIdx hp hhp'
        refine ⟨h1, ?_⟩
        rw [chargedSum_congr st.smart s' st.live hIdx hch]
        exact h2
      | ok b =>
        injection hstep with hstep
        subst hstep
        obtain ⟨idx, mt, al, al', hp0, cb, hsome, hca, hhp, hb, hs'⟩ :=
          SmartAllocator.alloc_ok_inv ha
        subst hb
        subst hs'
        unfold SmartTrace.HeapInv
        dsimp only
        intro hIdx hp hhp'
        have hmtlt : mt.heapIndex < st.smart.heaps.length := by
          by_contra hge
          rw [List.getElem?_eq_none (by omega)] at hhp
          cases hhp
        have hch : ∀ bb,
            chargedHeap ⟨st.smart.allocators.set idx (mt, al'),
              st.smart.heaps.set mt.heapIndex (hp0.alloc cb.size)⟩ bb =
              chargedHeap st.smart bb :=
          fun bb => chargedHeap_set _ hsome bb
        have hchb : chargedHeap st.smart ⟨cb, idx⟩ = some mt.heapIndex := by
          simp [chargedHeap, hsome]
        rw [chargedSum_congr st.smart _ _ hIdx hch,
          chargedSum_append st.smart st.live ⟨cb, idx⟩ hIdx]
        by_cases hEq : mt.heapIndex = hIdx
        · subst hEq
          rw [List.getElem?_set_self hmtlt] at hhp'
          injection hhp' with hhp'
          subst hhp'
          obtain ⟨hlt0, heq0⟩ := hinv mt.heapIndex hp0 hhp
          refine ⟨Nat.mod_lt _ U64_pos, ?_⟩
          rw [hchb, if_pos (by simp)]
          show (hp0.used + cb.size) % U64 = _
          rw [heq0]
          show _ = (chargedSum st.smart st.live mt.heapIndex +
            SmartBlock.size ⟨cb, idx⟩) % U64
          unfold SmartBlock.size
          dsimp only
          unfold U64
          omega
        · rw [List.getElem?_set_ne hEq] at hhp'
          obtain ⟨h1, h2⟩ := hinv hIdx hp hhp'
          refine ⟨h1, ?_⟩
          rw [hchb]
          rw [if_neg (by simpa using hEq)]
          rw [h2, Nat.add_zero]
  | free i =>
    unfold SmartTrace.step at hstep
    cases hb : st.live[i]? with
    | none => simp [hb] at hstep
    | some b =>
      simp only [hb] at hstep
      cases hf : st.smart.free st.device b with
      | mk r rest =>
        obtain ⟨s', d'⟩ := rest
        simp only [hf] at hstep
        cases r with
        | err e => simp at hstep
        | fatal => simp at hstep
        | ok u =>
          injection hstep with hstep
          subst hstep
          obtain ⟨mt, al, al', hp0, hsome, hhp, hs'⟩ := SmartAllocator.free_ok_inv hf
          subst hs'
          unfold SmartTrace.HeapInv
          dsimp only
          intro hIdx hp hhp'
          have hmtlt : mt.heapIndex < st.smart.heaps.length := by
            by_contra hge
            rw [List.getElem?_eq_none (by omega)] at hhp
            cases hhp
          have hch : ∀ bb,
              chargedHeap ⟨st.smart.allocators.set b.tag (mt, al'),
                st.smart.heaps.set mt.heapIndex (hp0.free b.size)⟩ bb =
                chargedHeap st.smart bb :=
            fun bb => chargedHeap_set _ hsome bb
          have hchb : chargedHeap st.smart b = some mt.heapIndex := by
            simp [chargedHeap, hsome]
          rw [chargedSum_congr st.smart _ _ hIdx hch]
          have herase := chargedSum_eraseIdx st.smart hIdx st.live i b hb
          by_cases hEq : mt.heapIndex = hIdx
          · subst hEq
            rw [List.getElem?_set_self hmtlt] at hhp'
            injection hhp' with hhp'
            subst hhp'
            obtain ⟨hlt0, heq0⟩ := hinv mt.heapIndex hp0 hhp
            rw [hchb, if_pos (by simp)] at herase
            constructor
            · show wsub hp0.used b.size < U64
              unfold wsub
              exact Nat.mod_lt _ U64_pos
            · show wsub hp0.used b.size = _
              rw [heq0, herase, Nat.add_comm]
              exact wsub_mod_add b.size _
          · rw [List.getElem?_set_ne hEq] at hhp'
            obtain ⟨h1, h2⟩ := hinv hIdx hp hhp'
            rw [hchb, if_neg (by simpa using hEq), Nat.add_zero] at herase
            refine ⟨h1, ?_⟩
            rw [← herase]
            exact h2

/-- Every abort-free run preserves the heap-accounting invariant. -/
theorem SmartTrace.run_heapInv : ∀ (ops : List SmartOp) (st st' : SmartTrace),
    st.run ops = some st' → st.HeapInv → st'.HeapInv
  | [], st, st' => by
    intro h hinv
    injection h with h
    subst h
    exact hinv
  | op :: ops, st, st' => by
    intro h hinv
    cases hstep : st.step op with
    | none => simp [SmartTrace.run, hstep] at h
    | some st₁ =>
      rw [SmartTrace.run, hstep] at h
      exact SmartTrace.run_heapInv ops st₁ st' h
        (SmartTrace.step_heapInv st st₁ op hstep hinv)

/-- A fresh `SmartAllocator` satisfies the heap-accounting invariant: every
heap starts with `used = 0` and no blocks are live. -/
theorem SmartTrace.init_heapInv (memoryTypes : List MemoryType)
    (memoryHeaps : List Nat) (arenaSize chunksPerBlock minChunkSize maxChunkSize : Nat)
    (plan : Nat → Option DeviceError) :
    (SmartTrace.init memoryTypes memoryHeaps arenaSize chunksPerBlock minChunkSize
      maxChunkSize plan).HeapInv := by
  intro hIdx hp hhp
  unfold SmartTrace.init SmartAllocator.new at hhp
  dsimp only at hhp
  rw [List.getElem?_map] at hhp
  cases hm : memoryHeaps[hIdx]? with
  | none => rw [hm] at hhp; cases hhp
  | some sz =>
    rw [hm] at hhp
    injection hhp with hhp
    subst hhp
    exact ⟨U64_pos, by simp [chargedSum, SmartTrace.init]⟩

/-- C3 (amended): along every abort-free sequence of `SmartAllocator`
alloc/free operations starting from a fresh allocator, each heap's `used`
counter equals the u64-wrapped sum of `size()` of the live blocks charged
to that heap.  (The claim's second half, `heap.used ≤ heap.size` whenever
`alloc` returns `Ok`, is refuted by a separate counterexample: the chunked
path can charge more than `reqs.size + reqs.alignment`.) -/
theorem c3_heap_accounting (memoryTypes : List MemoryType) (memoryHeaps : List Nat)
    (arenaSize chunksPerBlock minChunkSize maxChunkSize : Nat)
    (plan : Nat → Option DeviceError) (ops : List SmartOp) (st' : SmartTrace)
    (hrun : (SmartTrace.init memoryTypes memoryHeaps arenaSize chunksPerBlock
        minChunkSize maxChunkSize plan).run ops = some st') :
    st'.HeapInv :=
  SmartTrace.run_heapInv ops _ st' hrun
    (SmartTrace.init_heapInv memoryTypes memoryHeaps arenaSize chunksPerBlock
      minChunkSize maxChunkSize plan)

/-- C3 witness: a concrete abort-free run whose final state satisfies the
accounting invariant. -/
theorem c3_heap_accounting_witness :
    (SmartTrace.init [⟨7, 0⟩] [4096] 1024 4 64 4096 (fun _ => none)).run [] =
      some (SmartTrace.init [⟨7, 0⟩] [4096] 1024 4 64 4096 (fun _ => none)) ∧
    (SmartTrace.init [⟨7, 0⟩] [4096] 1024 4 64 4096 (fun _ => none)).HeapInv :=
  ⟨rfl, c3_heap_accounting [⟨7, 0⟩] [4096] 1024 4 64 4096 (fun _ => none) [] _ rfl⟩

/-- C7 (amended): a `ChunkedAllocator` allocation that picks size class `k`
(and passes `grow`'s assertion) extends the node sequence exactly to
`max(len, k + 2)` — on demand, but one entry past the class needed — while
`free` never changes the number of nodes. -/
theorem c7_nodes_growth (c : ChunkedAllocator) (r : RootAllocator) (d : Device)
    (reqs : Requirements) (k : Nat)
    (hsize : ¬ c.maxChunkSize < reqs.size)
    (hpick : c.pickNode (max reqs.size reqs.alignment) = .ok k)
    (hgrow : chunkSizeAt c.minChunkSize (k + 1) ≤ c.maxChunkSize) :
    (c.alloc r d reqs).2.1.nodes.length = max c.nodes.length (k + 2) ∧
    ∀ b, ((c.free r d b).2.1).nodes.length = c.nodes.length := by
  constructor
  · unfold ChunkedAllocator.alloc
    rw [if_neg hsize]
    simp only [hpick]
    unfold ChunkedAllocator.grow
    rw [if_neg (by simpa using hgrow)]
    have hlen : (c.nodes ++ (List.range' c.nodes.length (k + 1 + 1 - c.nodes.length)).map
        (fun i => ChunkedNode.new (chunkSizeAt c.minChunkSize i) c.chunksPerBlock
          c.id)).length = max c.nodes.length (k + 2) := by
      simp [List.length_append, List.length_range']
      omega
    cases hn : (c.nodes ++ (List.range' c.nodes.length (k + 1 + 1 - c.nodes.length)).map
        (fun i => ChunkedNode.new (chunkSizeAt c.minChunkSize i) c.chunksPerBlock
          c.id))[k]? with
    | none => simpa [hn] using hlen
    | some n =>
      cases ha : n.alloc r d reqs with
      | mk res rest =>
        obtain ⟨n', r', d'⟩ := rest
        simp [hn, ha, List.length_set]
        omega
  · intro b
    unfold ChunkedAllocator.free
    cases hp : c.pickNode b.size with
    | err e => rfl
    | fatal => rfl
    | ok index =>
      cases hn : c.nodes[index]? with
      | none => simp [hn]
      | some n =>
        cases hf : n.freeBlock b with
        | ok n' => simp [hn, hf, List.length_set]
        | err e => simp [hn, hf]
        | fatal => simp [hn, hf]

/-- C7 witness: a concrete first allocation in class 1 creating exactly
three nodes (classes 0, 1 and one past, class 2). -/
theorem c7_nodes_growth_witness :
    ¬ (ChunkedAllocator.new 4 64 4096 0).maxChunkSize < 100 ∧
    (ChunkedAllocator.new 4 64 4096 0).pickNode (max 100 1) = .ok 1 ∧
    chunkSizeAt (ChunkedAllocator.new 4 64 4096 0).minChunkSize 2 ≤
      (ChunkedAllocator.new 4 64 4096 0).maxChunkSize ∧
    (((ChunkedAllocator.new 4 64 4096 0).alloc (RootAllocator.new 0) devOK
        ⟨100, 1, 1⟩).2.1.nodes.length =
      max (ChunkedAllocator.new 4 64 4096 0).nodes.length 3 ∧
    ∀ b, (((ChunkedAllocator.new 4 64 4096 0).free (RootAllocator.new 0) devOK
        b).2.1).nodes.length = (ChunkedAllocator.new 4 64 4096 0).nodes.length) :=
  ⟨by decide, by decide, by decide,
    c7_nodes_growth (ChunkedAllocator.new 4 64 4096 0) (RootAllocator.new 0) devOK
      ⟨100, 1, 1⟩ 1 (by decide) (by decide) (by decide)⟩

/-- C8 (amended): a `ChunkedNode` allocation served from the free queue
returns the popped block's memory with range
`[chunk_index · chunk_size mod 2^64, (chunk_size + chunk_index · chunk_size) mod 2^64)`,
measured absolutely from the start of the backing memory and ignoring the
upstream block's own range start; the formula of the original claim holds
exactly when the upstream backing block starts at offset 0 (as every
`RootAllocator` block does). -/
theorem c8_chunk_offset_absolute (n n' : ChunkedNode) (blk : ChunkedBlock)
    (h : n.allocNoGrow = .ok (some (blk, n'))) :
    ∃ bi ci rest b0, n.free = (bi, ci) :: rest ∧ n.blocks[bi]? = some b0 ∧
      blk.raw.memory = b0.memory ∧
      blk.raw.range.start = (ci * n.chunkSize) % U64 ∧
      blk.raw.range.stop = (n.chunkSize + ci * n.chunkSize) % U64 ∧
      blk.tag = bi ∧
      n' = { n with free := rest } ∧
      (b0.range.start = 0 →
        blk.raw.range.start = (b0.range.start + ci * n.chunkSize) % U64) := by
  obtain ⟨bi, ci, rest, b0, hfree, hb, hblk, hn'⟩ := ChunkedNode.allocNoGrow_ok_spec h
  subst hblk
  exact ⟨bi, ci, rest, b0, hfree, hb, rfl, rfl, rfl, rfl, hn',
    fun h0 => by rw [h0, Nat.zero_add]⟩

/-- C8 witness: a concrete pop from a node whose single backing block does
start at 0, where the absolute and upstream-relative formulas agree. -/
theorem c8_chunk_offset_absolute_witness :
    (⟨0, 4, 64, [(0, 1)], [⟨5, ⟨0, 256⟩⟩]⟩ : ChunkedNode).allocNoGrow =
      .ok (some (⟨⟨5, ⟨64, 128⟩⟩, 0⟩, ⟨0, 4, 64, [], [⟨5, ⟨0, 256⟩⟩]⟩)) ∧
    (∃ bi ci rest b0,
      (⟨0, 4, 64, [(0, 1)], [⟨5, ⟨0, 256⟩⟩]⟩ : ChunkedNode).free = (bi, ci) :: rest ∧
      (⟨0, 4, 64, [(0, 1)], [⟨5, ⟨0, 256⟩⟩]⟩ : ChunkedNode).blocks[bi]? = some b0 ∧
      (⟨⟨5, ⟨64, 128⟩⟩, 0⟩ : ChunkedBlock).raw.memory = b0.memory ∧
      (⟨⟨5, ⟨64, 128⟩⟩, 0⟩ : ChunkedBlock).raw.range.start =
        (ci * (⟨0, 4, 64, [(0, 1)], [⟨5, ⟨0, 256⟩⟩]⟩ : ChunkedNode).chunkSize) % U64 ∧
      (⟨⟨5, ⟨64, 128⟩⟩, 0⟩ : ChunkedBlock).raw.range.stop =
        ((⟨0, 4, 64, [(0, 1)], [⟨5, ⟨0, 256⟩⟩]⟩ : ChunkedNode).chunkSize +
          ci * (⟨0, 4, 64, [(0, 1)], [⟨5, ⟨0, 256⟩⟩]⟩ : ChunkedNode).chunkSize) % U64 ∧
      (⟨⟨5, ⟨64, 128⟩⟩, 0⟩ : ChunkedBlock).tag = bi ∧
      (⟨0, 4, 64, [], [⟨5, ⟨0, 256⟩⟩]⟩ : ChunkedNode) =
        { (⟨0, 4, 64, [(0, 1)], [⟨5, ⟨0, 256⟩⟩]⟩ : ChunkedNode) with free := rest } ∧
      (b0.range.start = 0 →
        (⟨⟨5, ⟨64, 128⟩⟩, 0⟩ : ChunkedBlock).raw.range.start =
          (b0.range.start + ci * (⟨0, 4, 64, [(0, 1)],
            [⟨5, ⟨0, 256⟩⟩]⟩ : ChunkedNode).chunkSize) % U64)) :=
  ⟨by decide,
    c8_chunk_offset_absolute ⟨0, 4, 64, [(0, 1)], [⟨5, ⟨0, 256⟩⟩]⟩
      ⟨0, 4, 64, [], [⟨5, ⟨0, 256⟩⟩]⟩ ⟨⟨5, ⟨64, 128⟩⟩, 0⟩ (by decide)⟩

end GfxMem
